import Mathlib

/-!
# chaosblade: CPU full-load executor and preparation ledger

A shallow embedding of `exec/os/cpu.go` and `data/preparation.go`.

Go strings are Lean `String`s (valid UTF-8 text), Go `int` is a 64-bit
two's-complement integer represented by an `Int` kept in range by `wrapInt`.
A Go function returning `(T, error)` with a `nil` value on failure is an
`Except`; `parseCpuList`, which returns the cores gathered so far together with
the error, is a pair.  The one unbounded loop of the code (the range expansion
of `parseCpuList`) is driven by a step budget: `none` means the budget was
exhausted before the loop left.
-/

set_option autoImplicit false

namespace Chaosblade

/-! ## Go runtime and standard library -/

/-- Largest value of the Go `int` type, taken 64 bits wide. -/
def maxInt : Int := 2 ^ 63 - 1

/-- Smallest value of the Go `int` type. -/
def minInt : Int := -(2 ^ 63)

/-- Two's-complement reduction of an integer to the Go `int` range. -/
def wrapInt (i : Int) : Int := (i + 2 ^ 63) % 2 ^ 64 - 2 ^ 63

/-- The two error kinds of package `strconv`. -/
inductive NumErr where
  | ErrSyntax
  | ErrRange
  deriving DecidableEq, Repr

/-- The `strconv.NumError` value: failing function, input text, kind. -/
structure NumError where
  Func : String
  Num : String
  Err : NumErr
  deriving DecidableEq, Repr

deriving instance DecidableEq for Except

/-- ASCII decimal digit test. -/
def isDigit (c : Char) : Bool := decide (48 ≤ c.toNat) && decide (c.toNat ≤ 57)

/-- Value of an ASCII decimal digit. -/
def digitVal (c : Char) : Nat := c.toNat - 48

/-- Digit loop of `strconv.ParseUint(s, 10, 64)`: left to right, a non-digit is a
syntax error, leaving the unsigned 64-bit range is a range error. -/
def scanUint : List Char → Nat → Except NumErr Nat
  | [], n => .ok n
  | c :: cs, n =>
    if isDigit c then
      if n * 10 + digitVal c < 2 ^ 64 then scanUint cs (n * 10 + digitVal c)
      else .error .ErrRange
    else .error .ErrSyntax

/-- Sign handling and signed range check of `strconv.ParseInt(s, 10, 0)`. -/
def parseSigned (neg : Bool) (body : List Char) : Except NumErr Int :=
  match body with
  | [] => .error .ErrSyntax
  | _ :: _ =>
    match scanUint body 0 with
    | .error k => .error k
    | .ok un =>
      if neg then
        if un ≤ 2 ^ 63 then .ok (-(un : Int)) else .error .ErrRange
      else
        if un < 2 ^ 63 then .ok (un : Int) else .error .ErrRange

/-- Go `strconv.Atoi`: an optional sign followed by one or more decimal digits whose
value fits the `int` type. -/
def Atoi (s : String) : Except NumError Int :=
  let r : Except NumErr Int :=
    match s.data with
    | [] => .error .ErrSyntax
    | c :: cs =>
      if c = '+' then parseSigned false cs
      else if c = '-' then parseSigned true cs
      else parseSigned false (c :: cs)
  match r with
  | .ok v => .ok v
  | .error k => .error { Func := "Atoi", Num := s, Err := k }

/-- Go `strconv.Itoa` (also the `%d` verb of `fmt`): decimal text of an `int`. -/
def Itoa (i : Int) : String :=
  match i with
  | Int.ofNat n => String.mk (Nat.toDigits 10 n)
  | Int.negSucc n => String.mk ('-' :: Nat.toDigits 10 (n + 1))

/-- Go `unicode.IsSpace`. -/
def isSpace (c : Char) : Bool :=
  let n := c.toNat
  decide (9 ≤ n ∧ n ≤ 13) || n == 0x20 || n == 0x85 || n == 0xA0 || n == 0x1680
    || decide (0x2000 ≤ n ∧ n ≤ 0x200A) || n == 0x2028 || n == 0x2029 || n == 0x202F
    || n == 0x205F || n == 0x3000

/-- Go `strings.TrimSpace`. -/
def TrimSpace (s : String) : String :=
  String.mk ((s.data.dropWhile isSpace).reverse.dropWhile isSpace).reverse

/-- Splitting of a character list at every occurrence of a separator. -/
def splitChars (sep : Char) : List Char → List Char → List (List Char)
  | [], cur => [cur.reverse]
  | c :: cs, cur =>
    if c = sep then cur.reverse :: splitChars sep cs []
    else splitChars sep cs (c :: cur)

/-- Go `strings.Split` for a one-character separator. -/
def Split (s : String) (sep : Char) : List String :=
  (splitChars sep s.data []).map String.mk

/-- Go `strings.Contains` for a one-character substring. -/
def Contains (s : String) (c : Char) : Bool := decide (c ∈ s.data)

/-- Go `strings.Join`. -/
def Join : List String → String → String
  | [], _ => ""
  | [a], _ => a
  | a :: b :: rest, sep => a ++ sep ++ Join (b :: rest) sep

/-! ## exec/os/cpu.go -/

def CpuCountFlag : String := "cpu-count"

def CpuListFlag : String := "cpu-list"

/-- Modelled from the spec: the constant `StartFlag` of package `os` is declared
outside `cpu.go`; the start command line is `--start --cpu-count N [--cpu-list L]`. -/
def StartFlag : String := "start"

/-- Modelled from the spec: the constant `StopFlag` of package `os` is declared
outside `cpu.go`; the destroy command line is `--stop`. -/
def StopFlag : String := "stop"

/-- Modelled from the spec: the constant `TasksetCommand` of package `os` is declared
outside `cpu.go`; the affinity tool probed for is `taskset`. -/
def TasksetCommand : String := "taskset"

def burnCpuBin : String := "chaos_burncpu"

/-- The four `fmt.Errorf` sites of `parseCpuList`, each with the token it cites. -/
inductive ParseError where
  | illegalValue (value : String) (cause : NumError)
  | illegalRange (value : String)
  | illegalStart (value : String)
  | illegalEnd (value : String)
  deriving DecidableEq, Repr

/-- Text of `strconv.NumError.Error`, with `strconv.Quote` taken as a parameter. -/
def NumError.Error (quote : String → String) (e : NumError) : String :=
  "strconv." ++ e.Func ++ ": parsing " ++ quote e.Num ++ ": " ++
    (match e.Err with
     | .ErrSyntax => "invalid syntax"
     | .ErrRange => "value out of range")

/-- Message text of the error values built in `parseCpuList`. -/
def ParseError.Error (quote : String → String) : ParseError → String
  | .illegalValue value cause => value ++ " value is illegal, " ++ cause.Error quote
  | .illegalRange value => value ++ " value is illegal"
  | .illegalStart value => "start in " ++ value ++ " value is illegal"
  | .illegalEnd value => "end in " ++ value ++ " value is illegal"

/-- The loop `for i := startIndex; i <= endIndex; i++ { cores = append(cores, Itoa(i)) }`
with the wrapping increment of the Go `int` type. -/
def rangeLoop : Nat → Int → Int → List String → Option (List String)
  | 0, _, _, _ => none
  | fuel + 1, i, endIndex, cores =>
    if i ≤ endIndex then rangeLoop fuel (wrapInt (i + 1)) endIndex (cores ++ [Itoa i])
    else some cores

/-- The `for _, part := range commaParts` loop of `parseCpuList`. -/
def parseParts (fuel : Nat) : List String → List String → Option (List String × Option ParseError)
  | [], cores => some (cores, none)
  | part :: rest, cores =>
    let value := TrimSpace part
    if value = "" then parseParts fuel rest cores
    else if !Contains value '-' then
      match Atoi value with
      | .error err => some (cores, some (.illegalValue value err))
      | .ok _ => parseParts fuel rest (cores ++ [value])
    else
      match Split value '-' with
      | [lo, hi] =>
        match Atoi (TrimSpace lo) with
        | .error _ => some (cores, some (.illegalStart value))
        | .ok startIndex =>
          match Atoi (TrimSpace hi) with
          | .error _ => some (cores, some (.illegalEnd value))
          | .ok endIndex =>
            match rangeLoop fuel startIndex endIndex cores with
            | none => none
            | some cores1 => parseParts fuel rest cores1
      | _ => some (cores, some (.illegalRange value))

/-- The function `parseCpuList`: the cores gathered and the error, if any. -/
def parseCpuList (fuel : Nat) (cpuListValue : String) : Option (List String × Option ParseError) :=
  parseParts fuel (Split cpuListValue ',') []

/-- The response classes of package `transport` that the executor reports. -/
inductive CodeType where
  | ServerError
  | EnvironmentError
  | IllegalParameters
  deriving DecidableEq, Repr

/-- Collaborators of the executor declared outside `cpu.go`, over the response type of
package `transport`: `runtime.NumCPU`, `exec.IsCommandAvailable`,
`transport.ReturnFail` applied to `transport.Code[c]`, `path.Join`, `strconv.Quote`. -/
structure Host (Response : Type) where
  NumCPU : Int
  IsCommandAvailable : String → Bool
  ReturnFail : CodeType → String → Response
  pathJoin : String → String → String
  quote : String → String

/-- The part of `context.Context` the executor reads: the value `exec.IsDestroy` finds. -/
structure Context where
  destroy : Option String

/-- The interface `exec.Channel`: its script path and its `Run` method. -/
structure Channel (Response : Type) where
  GetScriptPath : String
  Run : Context → String → String → Response

/-- The part of `exec.ExpModel` the executor reads: the Go map `ActionFlags`. -/
structure ExpModel where
  ActionFlags : String → Option String

/-- Go map indexing: a missing key yields the empty string. -/
def ExpModel.flag (model : ExpModel) (key : String) : String :=
  (model.ActionFlags key).getD ""

/-- One call of `Channel.Run`: the script and its argument string. -/
structure Command where
  script : String
  args : String
  deriving DecidableEq, Repr

/-- What one call of `Exec` does: the response returned and the commands run on the
channel, in order. -/
structure Outcome (Response : Type) where
  response : Response
  commands : List Command

structure cpuExecutor (Response : Type) where
  channel : Option (Channel Response)

/-- The method `cpuExecutor.start`. -/
def cpuExecutor.start {Response : Type} (host : Host Response) (channel : Channel Response)
    (ctx : Context) (cpuList : String) (cpuCount : Int) : Outcome Response :=
  let args := "--" ++ StartFlag ++ " --" ++ CpuCountFlag ++ " " ++ Itoa cpuCount
  let args := if cpuList ≠ "" then args ++ " --" ++ CpuListFlag ++ " " ++ cpuList else args
  let script := host.pathJoin channel.GetScriptPath burnCpuBin
  { response := channel.Run ctx script args, commands := [{ script := script, args := args }] }

/-- The method `cpuExecutor.stop`. -/
def cpuExecutor.stop {Response : Type} (host : Host Response) (channel : Channel Response)
    (ctx : Context) : Outcome Response :=
  let script := host.pathJoin channel.GetScriptPath burnCpuBin
  let args := "--" ++ StopFlag
  { response := channel.Run ctx script args, commands := [{ script := script, args := args }] }

/-- The method `cpuExecutor.Exec`; `none` when the range expansion of `parseCpuList`
exhausts the step budget. -/
def cpuExecutor.Exec {Response : Type} (fuel : Nat) (host : Host Response)
    (ce : cpuExecutor Response) (_uid : String) (ctx : Context) (model : ExpModel) :
    Option (Outcome Response) :=
  match ce.channel with
  | none => some { response := host.ReturnFail .ServerError "channel is nil", commands := [] }
  | some channel =>
    match ctx.destroy with
    | some _ => some (cpuExecutor.stop host channel ctx)
    | none =>
      let cpuListStr := model.flag CpuListFlag
      if cpuListStr ≠ "" then
        if !host.IsCommandAvailable TasksetCommand then
          some { response := host.ReturnFail .EnvironmentError (TasksetCommand ++ " command not exist"),
                 commands := [] }
        else
          match parseCpuList fuel cpuListStr with
          | none => none
          | some (_, some err) =>
            some { response := host.ReturnFail .IllegalParameters
                     ("parse " ++ CpuListFlag ++ " flag err, " ++ err.Error host.quote),
                   commands := [] }
          | some (cores, none) => some (cpuExecutor.start host channel ctx (Join cores ",") 0)
      else
        let cpuCountStr := model.flag CpuCountFlag
        if cpuCountStr ≠ "" then
          match Atoi cpuCountStr with
          | .error _ =>
            some { response := host.ReturnFail .IllegalParameters
                     ("--" ++ CpuCountFlag ++ " value must be a positive integer"),
                   commands := [] }
          | .ok cpuCount =>
            let cpuCount := if cpuCount ≤ 0 ∨ cpuCount > host.NumCPU then host.NumCPU else cpuCount
            some (cpuExecutor.start host channel ctx "" cpuCount)
        else
          let cpuCount : Int := 0
          let cpuCount := if cpuCount ≤ 0 ∨ cpuCount > host.NumCPU then host.NumCPU else cpuCount
          some (cpuExecutor.start host channel ctx "" cpuCount)

/-! ## data/preparation.go -/

structure PreparationRecord where
  Uid : String
  ProgramType : String
  Process : String
  Port : String
  Status : String
  Error : String
  CreateTime : String
  UpdateTime : String
  deriving DecidableEq, Repr

/-- A Go `error` value coming from `database/sql`. -/
structure Error where
  msg : String
  deriving DecidableEq, Repr

/-- A value of a result column as handed to `Rows.Scan`. -/
inductive SqlValue where
  | integer (n : Int)
  | text (s : String)
  deriving DecidableEq, Repr

/-- A row of table `preparation`, one field per column of `preparationTableDDL`, in
declaration order. -/
structure Row where
  id : Int
  uid : String
  program_type : String
  process : String
  port : String
  status : String
  error : String
  create_time : String
  update_time : String
  deriving DecidableEq, Repr

/-- The result columns of `SELECT *` for one row: the columns in declaration order. -/
def Row.star (r : Row) : List SqlValue :=
  [.integer r.id, .text r.uid, .text r.program_type, .text r.process, .text r.port,
   .text r.status, .text r.error, .text r.create_time, .text r.update_time]

/-- Column list of `insertPreDML`. -/
def insertPreColumns : List String :=
  ["uid", "program_type", "process", "port", "status", "error", "create_time", "update_time"]

/-- The value an `INSERT` with a column list and bound arguments gives a column. -/
def boundValue (columns : List String) (args : List String) (column : String) : Option String :=
  (columns.zip args).lookup column

/-- The row an `INSERT INTO preparation (columns) VALUES (args)` stores under a fresh
`id`; `none` when a column is left without a value. -/
def insertedRow (id : Int) (columns : List String) (args : List String) : Option Row :=
  match boundValue columns args "uid", boundValue columns args "program_type",
        boundValue columns args "process", boundValue columns args "port",
        boundValue columns args "status", boundValue columns args "error",
        boundValue columns args "create_time", boundValue columns args "update_time" with
  | some uid, some t, some p, some port, some status, some error, some ct, some ut =>
    some { id := id, uid := uid, program_type := t, process := p, port := port,
           status := status, error := error, create_time := ct, update_time := ut }
  | _, _, _, _, _, _, _, _ => none

/-- One `column = value` assignment of an `UPDATE ... SET` applied to a row. -/
def Row.set (r : Row) (column : String) (value : String) : Row :=
  if column = "uid" then { r with uid := value }
  else if column = "program_type" then { r with program_type := value }
  else if column = "process" then { r with process := value }
  else if column = "port" then { r with port := value }
  else if column = "status" then { r with status := value }
  else if column = "error" then { r with error := value }
  else if column = "create_time" then { r with create_time := value }
  else if column = "update_time" then { r with update_time := value }
  else r

/-- The database behind `Source.DB`: the rows of table `preparation`, the
`AUTOINCREMENT` counter, and the failure, if any, the connection reports when a
statement is prepared or run. -/
structure DB where
  rows : List Row
  seq : Int
  prepareErr : Option Error
  runErr : Option Error

structure Source where
  DB : DB

/-- The connection neither fails to prepare nor to run a statement. -/
def Source.working (s : Source) : Prop := s.DB.prepareErr = none ∧ s.DB.runErr = none

/-- Method `DB.Prepare`: the error, if any. -/
def DB.Prepare (db : DB) : Option Error := db.prepareErr

/-- Running `insertPreDML` with bound arguments: the `UNIQUE` constraint on `uid`
rejects a value already stored. -/
def DB.execInsert (db : DB) (columns : List String) (args : List String) : Except Error DB :=
  match db.runErr with
  | some err => .error err
  | none =>
    match insertedRow (db.seq + 1) columns args with
    | none => .error { msg := "NOT NULL constraint failed" }
    | some row =>
      if db.rows.any (fun r => r.uid = row.uid) then
        .error { msg := "UNIQUE constraint failed: preparation.uid" }
      else .ok { db with rows := db.rows ++ [row], seq := db.seq + 1 }

/-- Running `UPDATE preparation SET assignments WHERE uid = ?`. -/
def DB.execUpdate (db : DB) (assignments : List (String × String)) (uid : String) :
    Except Error DB :=
  match db.runErr with
  | some err => .error err
  | none =>
    .ok { db with rows := db.rows.map (fun r =>
      if r.uid = uid then assignments.foldl (fun r a => r.set a.1 a.2) r else r) }

/-- Running `SELECT * FROM preparation WHERE cond`: the Go pair `(rows, err)`, where
`rows` is the nil pointer on failure. -/
def DB.Query (db : DB) (cond : Row → Bool) : Option (List (List SqlValue)) × Option Error :=
  match db.runErr with
  | some err => (none, some err)
  | none => (some ((db.rows.filter cond).map Row.star), none)

/-- What a Go call yields: its return values, or a run-time panic. -/
inductive Go (α : Type) where
  | ret (a : α)
  | panic
  deriving DecidableEq, Repr

/-- The call `rows.Scan(&id, &uid, &t, &p, &port, &status, &error, &createTime,
&updateTime)` followed by the construction of the record. -/
def scanRecord : List SqlValue → Except Error PreparationRecord
  | [.integer _, .text uid, .text t, .text p, .text port, .text status, .text error,
     .text createTime, .text updateTime] =>
    .ok { Uid := uid, ProgramType := t, Process := p, Port := port, Status := status,
          Error := error, CreateTime := createTime, UpdateTime := updateTime }
  | _ => .error { msg := "sql: Scan error" }

/-- The `for rows.Next()` loop of `getPreparationRecordFrom`. -/
def scanRecords : List (List SqlValue) → List PreparationRecord →
    Except Error (List PreparationRecord)
  | [], records => .ok records
  | row :: rest, records =>
    match scanRecord row with
    | .error err => .error err
    | .ok record => scanRecords rest (records ++ [record])

/-- The function `getPreparationRecordFrom`; calling `Next` on the nil pointer panics. -/
def getPreparationRecordFrom (rows : Option (List (List SqlValue))) :
    Go (Except Error (List PreparationRecord)) :=
  match rows with
  | none => .panic
  | some rs => .ret (scanRecords rs [])

/-- The method `Source.InsertPreparationRecord`: the store afterwards and the error. -/
def Source.InsertPreparationRecord (s : Source) (record : PreparationRecord) :
    Source × Option Error :=
  match s.DB.Prepare with
  | some err => (s, some err)
  | none =>
    match s.DB.execInsert insertPreColumns
        [record.Uid, record.ProgramType, record.Process, record.Port, record.Status,
         record.Error, record.CreateTime, record.UpdateTime] with
    | .error err => (s, some err)
    | .ok db => ({ DB := db }, none)

/-- The tail shared by the two point queries: scan, then the first record or nil. -/
def firstRecord (rows : Option (List (List SqlValue))) :
    Go (Except Error (Option PreparationRecord)) :=
  match getPreparationRecordFrom rows with
  | .panic => .panic
  | .ret (.error err) => .ret (.error err)
  | .ret (.ok records) => .ret (.ok records.head?)

/-- The method `Source.QueryPreparationByUid`. -/
def Source.QueryPreparationByUid (s : Source) (uid : String) :
    Go (Except Error (Option PreparationRecord)) :=
  match s.DB.Prepare with
  | some err => .ret (.error err)
  | none =>
    match s.DB.Query (fun r => r.uid = uid) with
    | (_, some err) => .ret (.error err)
    | (rows, none) => firstRecord rows

/-- The method `Source.QueryRunningPreByTypeAndProcess`. -/
def Source.QueryRunningPreByTypeAndProcess (s : Source) (programType : String)
    (process : String) : Go (Except Error (Option PreparationRecord)) :=
  let query : Row → Bool :=
    if process = "" then fun r => r.program_type = programType ∧ r.status = "Running"
    else fun r => r.program_type = programType ∧ r.process = process ∧ r.status = "Running"
  match s.DB.Prepare with
  | some err => .ret (.error err)
  | none =>
    match s.DB.Query query with
    | (_, some err) => .ret (.error err)
    | (rows, none) => firstRecord rows

/-- The method `Source.ListPreparationRecords`: the error of `stmt.Query` is dropped
and `rows` is used as returned. -/
def Source.ListPreparationRecords (s : Source) : Go (Except Error (List PreparationRecord)) :=
  match s.DB.Prepare with
  | some err => .ret (.error err)
  | none =>
    match s.DB.Query (fun _ => true) with
    | (rows, _) => getPreparationRecordFrom rows

/-- The method `Source.UpdatePreparationRecordByUid`; `now` is
`time.Now().Format(time.RFC3339Nano)`. -/
def Source.UpdatePreparationRecordByUid (s : Source) (now : String)
    (uid status errMsg : String) : Source × Option Error :=
  match s.DB.Prepare with
  | some err => (s, some err)
  | none =>
    match s.DB.execUpdate [("status", status), ("error", errMsg), ("update_time", now)] uid with
    | .error err => (s, some err)
    | .ok db => ({ DB := db }, none)

/-! ## Sample collaborators -/

/-- A host with `n` logical CPUs whose responses are plain text. -/
def sampleHost (n : Int) (taskset : Bool) : Host String :=
  { NumCPU := n
    IsCommandAvailable := fun _ => taskset
    ReturnFail := fun _ msg => msg
    pathJoin := fun dir file => dir ++ "/" ++ file
    quote := fun s => s }

/-- A channel that answers with the command line it was asked to run. -/
def sampleChannel : Channel String :=
  { GetScriptPath := "/opt/chaosblade/bin"
    Run := fun _ script args => script ++ " " ++ args }

/-- A flag map holding the given pairs. -/
def sampleModel (flags : List (String × String)) : ExpModel :=
  { ActionFlags := fun key => flags.lookup key }

/-- A ledger with one running and one finished CPU fault, over a working connection. -/
def sampleSource : Source :=
  { DB :=
    { rows :=
        [{ id := 1, uid := "u1", program_type := "cpu", process := "java", port := "",
           status := "Running", error := "", create_time := "2019-01-01T00:00:00Z",
           update_time := "2019-01-01T00:00:00Z" },
         { id := 2, uid := "u2", program_type := "cpu", process := "nginx", port := "80",
           status := "Destroyed", error := "", create_time := "2019-01-02T00:00:00Z",
           update_time := "2019-01-03T00:00:00Z" }]
      seq := 2
      prepareErr := none
      runErr := none } }

/-- A record not yet in `sampleSource`. -/
def sampleRecord : PreparationRecord :=
  { Uid := "u3", ProgramType := "cpu", Process := "redis", Port := "6379",
    Status := "Running", Error := "", CreateTime := "2019-01-04T00:00:00Z",
    UpdateTime := "2019-01-05T00:00:00Z" }

/-! ## Vocabulary of the statements -/

/-- The record a row of table `preparation` scans to. -/
def Row.toRecord (r : Row) : PreparationRecord :=
  { Uid := r.uid, ProgramType := r.program_type, Process := r.process, Port := r.port,
    Status := r.status, Error := r.error, CreateTime := r.create_time,
    UpdateTime := r.update_time }

/-- The row holding a record field by field under the given `id`. -/
def rowOf (id : Int) (r : PreparationRecord) : Row :=
  { id := id, uid := r.Uid, program_type := r.ProgramType, process := r.Process,
    port := r.Port, status := r.Status, error := r.Error, create_time := r.CreateTime,
    update_time := r.UpdateTime }

/-- The integers `start, start + 1, ..., stop` in ascending order. -/
def ascending (start stop : Int) : List Int :=
  (List.range (stop + 1 - start).toNat).map (fun (k : Nat) => start + (k : Int))

/-- The comma-separated tokens of a CPU-list expression, each trimmed of white space. -/
def cpuListTokens (expr : String) : List String := (Split expr ',').map TrimSpace

/-- An integer literal: an optional sign followed by one or more decimal digits. -/
def isIntegerLiteral (s : String) : Bool :=
  match s.data with
  | [] => false
  | c :: cs =>
    if c = '+' ∨ c = '-' then !cs.isEmpty && cs.all isDigit else (c :: cs).all isDigit

/-- A token `parseCpuList` takes: a dash-free text that `Atoi` parses, or two dash-free
texts joined by one `-`, each of which `Atoi` parses once trimmed. -/
def AcceptedToken (tok : String) : Prop :=
  (Contains tok '-' = false ∧ ∃ v, Atoi tok = .ok v)
  ∨ (∃ lo hi a b, tok = lo ++ "-" ++ hi ∧ Contains lo '-' = false ∧ Contains hi '-' = false
      ∧ Atoi (TrimSpace lo) = .ok a ∧ Atoi (TrimSpace hi) = .ok b)

/-- An offending token: not blank and not accepted. -/
def Offending (tok : String) : Prop := tok ≠ "" ∧ ¬ AcceptedToken tok

/-- The decision `parseCpuList` takes on one trimmed token. -/
inductive TokenClass where
  | blank
  | single
  | range (a b : Int)
  | bad (e : ParseError)
  deriving DecidableEq

/-- The branch of the loop body of `parseCpuList` a trimmed token falls in. -/
def classify (value : String) : TokenClass :=
  if value = "" then .blank
  else if !Contains value '-' then
    match Atoi value with
    | .error err => .bad (.illegalValue value err)
    | .ok _ => .single
  else
    match Split value '-' with
    | [lo, hi] =>
      match Atoi (TrimSpace lo) with
      | .error _ => .bad (.illegalStart value)
      | .ok a =>
        match Atoi (TrimSpace hi) with
        | .error _ => .bad (.illegalEnd value)
        | .ok b => .range a b
    | _ => .bad (.illegalRange value)

/-- Every range the token can be read as ends below `maxInt`. -/
def RangeEndsBelowMax (tok : String) : Prop :=
  ∀ lo hi b, tok = lo ++ "-" ++ hi → Contains lo '-' = false → Contains hi '-' = false →
    Atoi (TrimSpace hi) = .ok b → b < maxInt

/-- The expansion of a list of trimmed tokens: a blank token contributes nothing, a
dash-free integer literal that fits the `int` type contributes itself, and a range of
two such literals `start-end` with `start ≤ end < maxInt` contributes the decimal
texts of `start, ..., end` in ascending order. -/
inductive Expansion : List String → List String → Prop where
  | done : Expansion [] []
  | blank (tokens cores : List String) :
      Expansion tokens cores → Expansion ("" :: tokens) cores
  | single (tok : String) (v : Int) (tokens cores : List String) :
      Contains tok '-' = false → Atoi tok = .ok v →
      Expansion tokens cores → Expansion (tok :: tokens) (tok :: cores)
  | range (tok lo hi : String) (a b : Int) (tokens cores : List String) :
      tok = lo ++ "-" ++ hi → Contains lo '-' = false → Contains hi '-' = false →
      Atoi lo = .ok a → Atoi hi = .ok b → a ≤ b → b < maxInt →
      Expansion tokens cores → Expansion (tok :: tokens) ((ascending a b).map Itoa ++ cores)

/-! ## CPU-list parser -/

theorem wrapInt_of_inRange (x : Int) (h1 : minInt ≤ x) (h2 : x ≤ maxInt) : wrapInt x = x := by
  unfold wrapInt
  unfold minInt at h1
  unfold maxInt at h2
  have h : (x + 2 ^ 63) % 2 ^ 64 = x + 2 ^ 63 := by
    apply Int.emod_eq_of_lt <;> omega
  omega

theorem parseSigned_range (neg : Bool) (body : List Char) (v : Int)
    (h : parseSigned neg body = .ok v) : minInt ≤ v ∧ v ≤ maxInt := by
  unfold parseSigned at h
  unfold minInt maxInt
  cases body with
  | nil => simp at h
  | cons c cs =>
    simp only at h
    cases hs : scanUint (c :: cs) 0 with
    | error k => rw [hs] at h; simp at h
    | ok un =>
      rw [hs] at h
      cases neg with
      | true =>
        simp only [if_true] at h
        split at h
        · injection h with h; omega
        · simp at h
      | false =>
        simp only [Bool.false_eq_true, if_false] at h
        split at h
        · injection h with h; omega
        · simp at h

theorem Atoi_ok_iff (s : String) (v : Int) :
    Atoi s = .ok v ↔
      (match s.data with
       | [] => (.error .ErrSyntax : Except NumErr Int)
       | c :: cs =>
         if c = '+' then parseSigned false cs
         else if c = '-' then parseSigned true cs
         else parseSigned false (c :: cs)) = .ok v := by
  unfold Atoi
  simp only
  split <;> rename_i h <;> rw [h] <;> simp

/-- Values returned by `Atoi` fit the `int` type. -/
theorem Atoi_range (s : String) (v : Int) (h : Atoi s = .ok v) : minInt ≤ v ∧ v ≤ maxInt := by
  rw [Atoi_ok_iff] at h
  split at h
  · simp at h
  · split at h
    · exact parseSigned_range _ _ _ h
    · split at h
      · exact parseSigned_range _ _ _ h
      · exact parseSigned_range _ _ _ h

theorem ascending_of_gt (i e : Int) (h : e < i) : ascending i e = [] := by
  unfold ascending
  have : (e + 1 - i).toNat = 0 := by omega
  simp [this]

theorem ascending_cons (i e : Int) (h : i ≤ e) : ascending i e = i :: ascending (i + 1) e := by
  unfold ascending
  have h1 : (e + 1 - i).toNat = (e + 1 - (i + 1)).toNat + 1 := by omega
  rw [h1, List.range_succ_eq_map]
  simp only [List.map_cons, List.map_map, Nat.cast_zero, add_zero, List.cons.injEq, true_and]
  apply List.map_congr_left
  intro k _
  simp only [Function.comp, Nat.cast_succ]
  omega

/-- With the end below `maxInt` the range loop leaves after `stop + 1 - start` appends. -/
theorem rangeLoop_spec (n : Nat) :
    ∀ (fuel : Nat) (i e : Int) (acc : List String), minInt ≤ i → e < maxInt →
      (e + 1 - i).toNat = n → n < fuel →
      rangeLoop fuel i e acc = some (acc ++ (ascending i e).map Itoa) := by
  induction n with
  | zero =>
    intro fuel i e acc _ _ hn hf
    have hgt : e < i := by omega
    obtain ⟨f, rfl⟩ : ∃ f, fuel = f + 1 := ⟨fuel - 1, by omega⟩
    simp [rangeLoop, ascending_of_gt i e hgt, not_le.mpr hgt]
  | succ n ih =>
    intro fuel i e acc hi he hn hf
    have hle : i ≤ e := by omega
    obtain ⟨f, rfl⟩ : ∃ f, fuel = f + 1 := ⟨fuel - 1, by omega⟩
    have hw : wrapInt (i + 1) = i + 1 := by
      apply wrapInt_of_inRange
      · omega
      · omega
    simp only [rangeLoop, hle, if_true, hw]
    rw [ih f (i + 1) e (acc ++ [Itoa i]) (by omega) he (by omega) (by omega),
      ascending_cons i e hle]
    simp

/-- With the end at `maxInt` the range loop never leaves: the increment wraps around. -/
theorem rangeLoop_maxInt (fuel : Nat) :
    ∀ (i : Int) (acc : List String), minInt ≤ i → i ≤ maxInt →
      rangeLoop fuel i maxInt acc = none := by
  induction fuel with
  | zero => intro i acc _ _; rfl
  | succ f ih =>
    intro i acc h1 h2
    simp only [rangeLoop, h2, if_true]
    apply ih
    · unfold wrapInt minInt; omega
    · unfold wrapInt maxInt; omega

theorem dropWhile_eq_self {α : Type} (p : α → Bool) (l : List α)
    (h : ∀ x ∈ l, p x = false) : l.dropWhile p = l := by
  cases l with
  | nil => rfl
  | cons a t => simp [List.dropWhile, h a (List.mem_cons_self a t)]

/-- Text without white space is left alone by `TrimSpace`. -/
theorem TrimSpace_eq_self (s : String) (h : ∀ c ∈ s.data, isSpace c = false) :
    TrimSpace s = s := by
  unfold TrimSpace
  rw [dropWhile_eq_self isSpace s.data h,
    dropWhile_eq_self isSpace s.data.reverse (fun c hc => h c (List.mem_reverse.mp hc))]
  simp

theorem splitChars_ne_nil (sep : Char) (l cur : List Char) : splitChars sep l cur ≠ [] := by
  induction l generalizing cur with
  | nil => simp [splitChars]
  | cons c cs ih =>
    unfold splitChars
    split
    · simp
    · exact ih _

theorem splitChars_noSep (sep : Char) (l cur : List Char) (h : sep ∉ l) :
    splitChars sep l cur = [cur.reverse ++ l] := by
  induction l generalizing cur with
  | nil => simp [splitChars]
  | cons c cs ih =>
    have hc : ¬ c = sep := fun e => h (e ▸ List.mem_cons_self c cs)
    have hcs : sep ∉ cs := fun e => h (List.mem_cons_of_mem c e)
    simp [splitChars, hc, ih _ hcs]

theorem splitChars_append (sep : Char) (a b cur : List Char) (h : sep ∉ a) :
    splitChars sep (a ++ sep :: b) cur = (cur.reverse ++ a) :: splitChars sep b [] := by
  induction a generalizing cur with
  | nil => simp [splitChars]
  | cons c cs ih =>
    have hc : ¬ c = sep := fun e => h (e ▸ List.mem_cons_self c cs)
    have hcs : sep ∉ cs := fun e => h (List.mem_cons_of_mem c e)
    simp [splitChars, hc, ih _ hcs]

theorem splitChars_single (sep : Char) (l cur x : List Char)
    (h : splitChars sep l cur = [x]) : sep ∉ l ∧ x = cur.reverse ++ l := by
  induction l generalizing cur with
  | nil => simp [splitChars] at h; simp [h]
  | cons c cs ih =>
    unfold splitChars at h
    split at h
    · simp only [List.cons.injEq] at h
      exact absurd h.2 (splitChars_ne_nil sep cs [])
    · rename_i hc
      obtain ⟨h1, h2⟩ := ih _ h
      refine ⟨?_, by simp [h2]⟩
      intro hm
      rcases List.mem_cons.mp hm with e | e
      · exact hc e.symm
      · exact h1 e

theorem splitChars_pair (sep : Char) (l cur x y : List Char)
    (h : splitChars sep l cur = [x, y]) :
    ∃ a, x = cur.reverse ++ a ∧ l = a ++ sep :: y ∧ sep ∉ a ∧ sep ∉ y := by
  induction l generalizing cur with
  | nil => simp [splitChars] at h
  | cons c cs ih =>
    unfold splitChars at h
    split at h
    · rename_i hc
      simp only [List.cons.injEq] at h
      obtain ⟨h1, h2⟩ := splitChars_single sep cs [] y h.2
      exact ⟨[], by simp [h.1], by simp [hc, h2], by simp, by simpa [h2] using h1⟩
    · rename_i hc
      obtain ⟨a, h1, h2, h3, h4⟩ := ih _ h
      refine ⟨c :: a, by simp [h1], by simp [h2], ?_, h4⟩
      intro hm
      rcases List.mem_cons.mp hm with e | e
      · exact hc e.symm
      · exact h3 e

theorem parseParts_cons (fuel : Nat) (part : String) (rest acc : List String) :
    parseParts fuel (part :: rest) acc =
      match classify (TrimSpace part) with
      | .blank => parseParts fuel rest acc
      | .single => parseParts fuel rest (acc ++ [TrimSpace part])
      | .range a b =>
        match rangeLoop fuel a b acc with
        | none => none
        | some cores1 => parseParts fuel rest cores1
      | .bad e => some (acc, some e) := by
  rw [parseParts]
  unfold classify
  split
  · rfl
  · split
    · split <;> rfl
    · split
      · split
        · rfl
        · split <;> rfl
      · rfl

theorem Split_pair_iff (v lo hi : String) (sep : Char) :
    Split v sep = [lo, hi] ↔
      v.data = lo.data ++ sep :: hi.data ∧ sep ∉ lo.data ∧ sep ∉ hi.data := by
  unfold Split
  constructor
  · intro h
    cases hs : splitChars sep v.data [] with
    | nil => exact absurd hs (splitChars_ne_nil _ _ _)
    | cons x t =>
      rw [hs] at h
      cases t with
      | nil => simp at h
      | cons y t2 =>
        cases t2 with
        | cons z t3 => simp at h
        | nil =>
          simp only [List.map_cons, List.map_nil, List.cons.injEq, and_true] at h
          obtain ⟨a, h1, h2, h3, h4⟩ := splitChars_pair sep v.data [] x y hs
          simp only [List.reverse_nil, List.nil_append] at h1
          subst h1
          rw [← h.1, ← h.2]
          exact ⟨h2, h3, h4⟩
  · rintro ⟨h1, h2, h3⟩
    rw [h1, splitChars_append sep _ _ _ h2, splitChars_noSep sep _ _ h3]
    simp

theorem Contains_eq_false (s : String) (c : Char) : Contains s c = false ↔ c ∉ s.data := by
  simp [Contains]

theorem Contains_eq_true (s : String) (c : Char) : Contains s c = true ↔ c ∈ s.data := by
  simp [Contains]

theorem dash_join_data (lo hi : String) : (lo ++ "-" ++ hi).data = lo.data ++ '-' :: hi.data := by
  simp [String.data_append]

theorem classify_of_blank : classify "" = .blank := by
  unfold classify
  simp

theorem classify_of_single (v : String) (n : Int) (h0 : v ≠ "")
    (h1 : Contains v '-' = false) (h2 : Atoi v = .ok n) : classify v = .single := by
  unfold classify
  simp [h0, h1, h2]

theorem data_ne_nil_ne_empty (v : String) (h : v.data ≠ []) : v ≠ "" := by
  intro e
  rw [e] at h
  exact h rfl

theorem classify_of_range (v lo hi : String) (a b : Int)
    (hv : v.data = lo.data ++ '-' :: hi.data) (h1 : '-' ∉ lo.data) (h2 : '-' ∉ hi.data)
    (ha : Atoi (TrimSpace lo) = .ok a) (hb : Atoi (TrimSpace hi) = .ok b) :
    classify v = .range a b := by
  have hne : v ≠ "" := data_ne_nil_ne_empty v (by rw [hv]; simp)
  have hc : Contains v '-' = true := by rw [Contains_eq_true, hv]; simp
  have hs : Split v '-' = [lo, hi] := (Split_pair_iff v lo hi '-').mpr ⟨hv, h1, h2⟩
  unfold classify
  simp [hne, hc, hs, ha, hb]

theorem classify_blank (v : String) (h : classify v = .blank) : v = "" := by
  unfold classify at h
  by_cases h0 : v = ""
  · exact h0
  · simp only [h0, if_false] at h
    split at h
    · split at h <;> simp at h
    · split at h
      · split at h
        · simp at h
        · split at h <;> simp at h
      · simp at h

theorem classify_single (v : String) (h : classify v = .single) :
    v ≠ "" ∧ Contains v '-' = false ∧ ∃ n, Atoi v = .ok n := by
  unfold classify at h
  by_cases h0 : v = ""
  · simp [h0] at h
  · simp only [h0, if_false] at h
    split at h
    · rename_i hc
      split at h
      · simp at h
      · rename_i n hn
        exact ⟨h0, by simpa using hc, n, hn⟩
    · split at h
      · split at h
        · simp at h
        · split at h <;> simp at h
      · simp at h

theorem classify_range (v : String) (a b : Int) (h : classify v = .range a b) :
    ∃ lo hi, v.data = lo.data ++ '-' :: hi.data ∧ '-' ∉ lo.data ∧ '-' ∉ hi.data
      ∧ Atoi (TrimSpace lo) = .ok a ∧ Atoi (TrimSpace hi) = .ok b := by
  unfold classify at h
  by_cases h0 : v = ""
  · simp [h0] at h
  · simp only [h0, if_false] at h
    split at h
    · split at h <;> simp at h
    · split at h
      · rename_i lo hi hs
        split at h
        · simp at h
        · rename_i a1 ha
          split at h
          · simp at h
          · rename_i b1 hb
            simp only [TokenClass.range.injEq] at h
            obtain ⟨h1, h2, h3⟩ := (Split_pair_iff v lo hi '-').mp hs
            exact ⟨lo, hi, h1, h2, h3, h.1 ▸ ha, h.2 ▸ hb⟩
      · simp at h

theorem accepted_not_dashfree (v : String) (hc : Contains v '-' = true) (h : AcceptedToken v) :
    ∃ lo hi a b, Split v '-' = [lo, hi] ∧ Atoi (TrimSpace lo) = .ok a
      ∧ Atoi (TrimSpace hi) = .ok b := by
  rcases h with ⟨h1, _⟩ | ⟨lo, hi, a, b, hv, h1, h2, ha, hb⟩
  · rw [hc] at h1; cases h1
  · refine ⟨lo, hi, a, b, (Split_pair_iff v lo hi '-').mpr ⟨?_, ?_, ?_⟩, ha, hb⟩
    · rw [hv]; exact dash_join_data lo hi
    · exact (Contains_eq_false lo '-').mp h1
    · exact (Contains_eq_false hi '-').mp h2

theorem accepted_dashfree (v : String) (hc : Contains v '-' = false) (h : AcceptedToken v) :
    ∃ n, Atoi v = .ok n := by
  rcases h with ⟨_, h2⟩ | ⟨lo, hi, a, b, hv, _, _, _, _⟩
  · exact h2
  · have : '-' ∈ v.data := by rw [hv, dash_join_data]; simp
    rw [Contains_eq_false] at hc
    exact absurd this hc

theorem isInfix_of_append (pre mid post : String) :
    List.IsInfix mid.data (pre ++ mid ++ post).data :=
  ⟨pre.data, post.data, by simp [String.data_append]⟩

/-- A token the loop body rejects is offending, and the error cites it. -/
theorem classify_bad (v : String) (e : ParseError) (h : classify v = .bad e) :
    Offending v ∧ ∀ quote, List.IsInfix v.data (e.Error quote).data := by
  unfold classify at h
  by_cases h0 : v = ""
  · simp [h0] at h
  · simp only [h0, if_false] at h
    split at h
    · rename_i hc
      have hc1 : Contains v '-' = false := by simpa using hc
      split at h
      · rename_i err herr
        simp only [TokenClass.bad.injEq] at h
        subst h
        refine ⟨⟨h0, fun hacc => ?_⟩, fun quote => ?_⟩
        · obtain ⟨n, hn⟩ := accepted_dashfree v hc1 hacc
          rw [hn] at herr; cases herr
        · have := isInfix_of_append "" v (" value is illegal, " ++ err.Error quote)
          simpa [ParseError.Error, String.data_append] using this
      · simp at h
    · rename_i hc
      have hc1 : Contains v '-' = true := by simpa using hc
      split at h
      · rename_i lo hi hs
        split at h
        · rename_i err herr
          simp only [TokenClass.bad.injEq] at h
          subst h
          refine ⟨⟨h0, fun hacc => ?_⟩, fun quote => ?_⟩
          · obtain ⟨lo1, hi1, a, b, hs1, ha, _⟩ := accepted_not_dashfree v hc1 hacc
            rw [hs] at hs1
            simp only [List.cons.injEq, and_true] at hs1
            rw [← hs1.1, herr] at ha; cases ha
          · exact isInfix_of_append "start in " v " value is illegal"
        · split at h
          · rename_i a ha err herr
            simp only [TokenClass.bad.injEq] at h
            subst h
            refine ⟨⟨h0, fun hacc => ?_⟩, fun quote => ?_⟩
            · obtain ⟨lo1, hi1, a1, b, hs1, _, hb⟩ := accepted_not_dashfree v hc1 hacc
              rw [hs] at hs1
              simp only [List.cons.injEq, and_true] at hs1
              rw [← hs1.2, herr] at hb; cases hb
            · exact isInfix_of_append "end in " v " value is illegal"
          · simp at h
      · rename_i hs
        simp only [TokenClass.bad.injEq] at h
        subst h
        refine ⟨⟨h0, fun hacc => ?_⟩, fun quote => ?_⟩
        · obtain ⟨lo1, hi1, a, b, hs1, _, _⟩ := accepted_not_dashfree v hc1 hacc
          exact hs lo1 hi1 hs1
        · have := isInfix_of_append "" v " value is illegal"
          simpa [ParseError.Error, String.data_append] using this

theorem isDigit_not_space (c : Char) (h : isDigit c = true) : isSpace c = false := by
  simp only [isDigit, Bool.and_eq_true, decide_eq_true_eq] at h
  simp only [isSpace, Bool.or_eq_false_iff, decide_eq_false_iff_not, beq_eq_false_iff_ne, ne_eq]
  omega

theorem scanUint_digits (l : List Char) (n m : Nat) (h : scanUint l n = .ok m) :
    ∀ c ∈ l, isDigit c = true := by
  induction l generalizing n with
  | nil => simp
  | cons c cs ih =>
    unfold scanUint at h
    split at h
    · rename_i hd
      split at h
      · intro x hx
        rcases List.mem_cons.mp hx with e | e
        · rw [e]; exact hd
        · exact ih _ h x e
      · simp at h
    · simp at h

theorem parseSigned_digits (neg : Bool) (body : List Char) (v : Int)
    (h : parseSigned neg body = .ok v) : ∀ c ∈ body, isDigit c = true := by
  unfold parseSigned at h
  cases body with
  | nil => simp at h
  | cons c cs =>
    simp only at h
    cases hs : scanUint (c :: cs) 0 with
    | error k => rw [hs] at h; simp at h
    | ok un => exact scanUint_digits _ _ _ hs

/-- Text that `Atoi` parses holds no white space. -/
theorem Atoi_no_space (s : String) (v : Int) (h : Atoi s = .ok v) :
    ∀ c ∈ s.data, isSpace c = false := by
  rw [Atoi_ok_iff] at h
  split at h
  · simp at h
  · rename_i c cs hdata
    rw [hdata]
    intro x hx
    split at h
    · rename_i hc
      rcases List.mem_cons.mp hx with e | e
      · rw [e, hc]; decide
      · exact isDigit_not_space x (parseSigned_digits _ _ _ h x e)
    · split at h
      · rename_i hc
        rcases List.mem_cons.mp hx with e | e
        · rw [e, hc]; decide
        · exact isDigit_not_space x (parseSigned_digits _ _ _ h x e)
      · exact isDigit_not_space x (parseSigned_digits _ _ _ h x hx)

theorem Atoi_ne_empty (s : String) (v : Int) (h : Atoi s = .ok v) : s ≠ "" := by
  intro e
  rw [e] at h
  simp [Atoi] at h

theorem rangeLoop_leaves (a b : Int) (ha : minInt ≤ a) (hb : b < maxInt) :
    ∀ fuel, (b + 1 - a).toNat < fuel → ∀ acc,
      rangeLoop fuel a b acc = some (acc ++ (ascending a b).map Itoa) :=
  fun fuel hf acc => rangeLoop_spec _ fuel a b acc ha hb rfl hf

theorem parseParts_expansion (tokens cores : List String) (h : Expansion tokens cores) :
    ∀ parts, parts.map TrimSpace = tokens →
      ∃ f0, ∀ fuel, f0 ≤ fuel → ∀ acc, parseParts fuel parts acc = some (acc ++ cores, none) := by
  induction h with
  | done =>
    intro parts hp
    have : parts = [] := List.map_eq_nil_iff.mp hp
    subst this
    exact ⟨0, fun fuel _ acc => by simp [parseParts]⟩
  | blank tokens cores _ ih =>
    intro parts hp
    cases parts with
    | nil => simp at hp
    | cons part rest =>
      simp only [List.map_cons, List.cons.injEq] at hp
      obtain ⟨f0, hf0⟩ := ih rest hp.2
      refine ⟨f0, fun fuel hfuel acc => ?_⟩
      rw [parseParts_cons, hp.1, classify_of_blank]
      exact hf0 fuel hfuel acc
  | single tok v tokens cores hc hv _ ih =>
    intro parts hp
    cases parts with
    | nil => simp at hp
    | cons part rest =>
      simp only [List.map_cons, List.cons.injEq] at hp
      obtain ⟨f0, hf0⟩ := ih rest hp.2
      refine ⟨f0, fun fuel hfuel acc => ?_⟩
      rw [parseParts_cons, hp.1, classify_of_single tok v (Atoi_ne_empty tok v hv) hc hv]
      simp only
      rw [hf0 fuel hfuel (acc ++ [tok])]
      simp
  | range tok lo hi a b tokens cores htok hlo hhi ha hb hab hmax _ ih =>
    intro parts hp
    cases parts with
    | nil => simp at hp
    | cons part rest =>
      simp only [List.map_cons, List.cons.injEq] at hp
      obtain ⟨f0, hf0⟩ := ih rest hp.2
      have hcl : classify tok = .range a b := by
        apply classify_of_range tok lo hi a b
        · rw [htok]; exact dash_join_data lo hi
        · exact (Contains_eq_false lo '-').mp hlo
        · exact (Contains_eq_false hi '-').mp hhi
        · rw [TrimSpace_eq_self lo (Atoi_no_space lo a ha)]; exact ha
        · rw [TrimSpace_eq_self hi (Atoi_no_space hi b hb)]; exact hb
      refine ⟨max f0 ((b + 1 - a).toNat + 1), fun fuel hfuel acc => ?_⟩
      rw [parseParts_cons, hp.1, hcl]
      simp only
      rw [rangeLoop_leaves a b (Atoi_range lo a ha).1 hmax fuel (by omega) acc]
      simp only
      rw [hf0 fuel (by omega)]
      simp

/-- C1, as stated, fails. `9223372036854775808` is a single token that is an integer
literal, and so is `-5`; yet `parseCpuList` returns an error on either, whatever the
step budget: the first does not fit the `int` type, the second is taken for a range. -/
theorem parseCpuList_rejects_integer_literals :
    (cpuListTokens "9223372036854775808" = ["9223372036854775808"]
      ∧ isIntegerLiteral "9223372036854775808" = true
      ∧ ∀ fuel, parseCpuList fuel "9223372036854775808"
          = some ([], some (.illegalValue "9223372036854775808"
              { Func := "Atoi", Num := "9223372036854775808", Err := .ErrRange })))
    ∧ (cpuListTokens "-5" = ["-5"]
      ∧ isIntegerLiteral "-5" = true
      ∧ Atoi "-5" = .ok (-5)
      ∧ ∀ fuel, parseCpuList fuel "-5" = some ([], some (.illegalStart "-5"))) := by
  refine ⟨⟨by decide, by decide, fun fuel => ?_⟩, ⟨by decide, by decide, by decide,
    fun fuel => ?_⟩⟩
  · have h : Split "9223372036854775808" ',' = ["9223372036854775808"] := by decide
    have hc : classify (TrimSpace "9223372036854775808")
        = .bad (.illegalValue "9223372036854775808"
            { Func := "Atoi", Num := "9223372036854775808", Err := .ErrRange }) := by decide
    rw [parseCpuList, h, parseParts_cons, hc]
  · have h : Split "-5" ',' = ["-5"] := by decide
    have hc : classify (TrimSpace "-5") = .bad (.illegalStart "-5") := by decide
    rw [parseCpuList, h, parseParts_cons, hc]

/-- C1, amended. For every CPU-list expression whose trimmed comma-separated tokens are
each blank, a dash-free integer literal that fits the `int` type, or a range `start-end`
of two such literals with `start ≤ end < maxInt`, `parseCpuList` returns, given enough
steps, without error and with exactly the concatenation, in token order, of the
expansions: nothing for a blank token, the token itself for a literal, the decimal
texts of `start, ..., end` in ascending order for a range; nothing is deduplicated. -/
theorem parseCpuList_expansion (expr : String) (cores : List String)
    (h : Expansion (cpuListTokens expr) cores) :
    ∃ f0, ∀ fuel, f0 ≤ fuel → parseCpuList fuel expr = some (cores, none) := by
  obtain ⟨f0, hf0⟩ := parseParts_expansion _ _ h (Split expr ',') rfl
  refine ⟨f0, fun fuel hfuel => ?_⟩
  rw [parseCpuList, hf0 fuel hfuel []]
  simp

theorem parseCpuList_expansion_witness :
    ∃ f0, ∀ fuel, f0 ≤ fuel → parseCpuList fuel "1, ,3-5,1" = some (["1", "3", "4", "5", "1"], none) :=
  parseCpuList_expansion "1, ,3-5,1" ["1", "3", "4", "5", "1"]
    (by
      have ht : cpuListTokens "1, ,3-5,1" = ["1", "", "3-5", "1"] := by decide
      rw [ht]
      exact Expansion.single "1" 1 _ _ (by decide) (by decide)
        (Expansion.blank _ _
          (Expansion.range "3-5" "3" "5" 3 5 _ _ (by decide) (by decide) (by decide)
            (by decide) (by decide) (by decide) (by decide)
            (Expansion.single "1" 1 _ _ (by decide) (by decide) Expansion.done))))

/-- The expansions quoted with the parser's contract, evaluated. -/
theorem parseCpuList_samples :
    parseCpuList 8 "1,3-5" = some (["1", "3", "4", "5"], none)
    ∧ parseCpuList 8 "0-3" = some (["0", "1", "2", "3"], none)
    ∧ parseCpuList 8 "1, , 2" = some (["1", "2"], none)
    ∧ parseCpuList 8 "0,0" = some (["0", "0"], none)
    ∧ parseCpuList 8 "5-2" = some ([], none)
    ∧ parseCpuList 8 "a" = some ([], some (.illegalValue "a"
        { Func := "Atoi", Num := "a", Err := .ErrSyntax }))
    ∧ parseCpuList 8 "2-" = some ([], some (.illegalEnd "2-"))
    ∧ parseCpuList 8 "-5" = some ([], some (.illegalStart "-5"))
    ∧ parseCpuList 8 "1 - 3" = some (["1", "2", "3"], none) := by
  refine ⟨by decide, by decide, by decide, by decide, by decide, by decide, by decide,
    by decide, by decide⟩

/-- A range that ends at `maxInt` is never left: no step budget lets `parseCpuList`
return on it. -/
theorem parseCpuList_range_to_maxInt (fuel : Nat) :
    parseCpuList fuel "9223372036854775806-9223372036854775807" = none := by
  have h : Split "9223372036854775806-9223372036854775807" ','
      = ["9223372036854775806-9223372036854775807"] := by decide
  have hc : classify (TrimSpace "9223372036854775806-9223372036854775807")
      = .range 9223372036854775806 maxInt := by decide
  rw [parseCpuList, h, parseParts_cons, hc]
  simp only
  rw [rangeLoop_maxInt fuel _ _ (by decide) (by decide)]

theorem string_eq_dash_join (v lo hi : String) (h : v.data = lo.data ++ '-' :: hi.data) :
    v = lo ++ "-" ++ hi := by
  apply String.ext
  rw [h, dash_join_data]

theorem not_offending_of_blank (v : String) (h : classify v = .blank) : ¬ Offending v :=
  fun ho => ho.1 (classify_blank v h)

theorem not_offending_of_single (v : String) (h : classify v = .single) : ¬ Offending v := by
  obtain ⟨_, h1, h2⟩ := classify_single v h
  exact fun ho => ho.2 (Or.inl ⟨h1, h2⟩)

theorem not_offending_of_range (v : String) (a b : Int) (h : classify v = .range a b) :
    ¬ Offending v := by
  obtain ⟨lo, hi, h1, h2, h3, h4, h5⟩ := classify_range v a b h
  exact fun ho => ho.2 (Or.inr ⟨lo, hi, a, b, string_eq_dash_join v lo hi h1,
    (Contains_eq_false lo '-').mpr h2, (Contains_eq_false hi '-').mpr h3, h4, h5⟩)

theorem offending_classify (v : String) (h : Offending v) : ∃ e, classify v = .bad e := by
  cases hc : classify v with
  | blank => exact absurd h (not_offending_of_blank v hc)
  | single => exact absurd h (not_offending_of_single v hc)
  | range a b => exact absurd h (not_offending_of_range v a b hc)
  | bad e => exact ⟨e, rfl⟩

theorem range_bounds_of_classify (v : String) (a b : Int) (h : classify v = .range a b)
    (hb : RangeEndsBelowMax v) : minInt ≤ a ∧ b < maxInt := by
  obtain ⟨lo, hi, h1, h2, h3, h4, h5⟩ := classify_range v a b h
  exact ⟨(Atoi_range _ a h4).1, hb lo hi b (string_eq_dash_join v lo hi h1)
    ((Contains_eq_false lo '-').mpr h2) ((Contains_eq_false hi '-').mpr h3) h5⟩

/-- A token is offending exactly when the loop body of `parseCpuList` rejects it. -/
theorem offending_iff_classify_bad (v : String) :
    Offending v ↔ ∃ e, classify v = .bad e :=
  ⟨offending_classify v, fun ⟨e, he⟩ => (classify_bad v e he).1⟩

/-- An error returned by the loop cites the first offending token. -/
theorem parseParts_error (parts : List String) :
    ∀ (fuel : Nat) (acc cores : List String) (e : ParseError),
      parseParts fuel parts acc = some (cores, some e) →
      ∃ pre tok post, parts.map TrimSpace = pre ++ tok :: post ∧ (∀ t ∈ pre, ¬ Offending t)
        ∧ Offending tok ∧ ∀ quote, List.IsInfix tok.data (e.Error quote).data := by
  induction parts with
  | nil => intro fuel acc cores e h; simp [parseParts] at h
  | cons part rest ih =>
    intro fuel acc cores e h
    rw [parseParts_cons] at h
    cases hc : classify (TrimSpace part) with
    | blank =>
      rw [hc] at h
      obtain ⟨pre, tok, post, h1, h2, h3, h4⟩ := ih fuel acc cores e h
      refine ⟨TrimSpace part :: pre, tok, post, by simp [h1], ?_, h3, h4⟩
      intro t ht
      rcases List.mem_cons.mp ht with e1 | e1
      · rw [e1]; exact not_offending_of_blank _ hc
      · exact h2 t e1
    | single =>
      rw [hc] at h
      obtain ⟨pre, tok, post, h1, h2, h3, h4⟩ := ih fuel _ cores e h
      refine ⟨TrimSpace part :: pre, tok, post, by simp [h1], ?_, h3, h4⟩
      intro t ht
      rcases List.mem_cons.mp ht with e1 | e1
      · rw [e1]; exact not_offending_of_single _ hc
      · exact h2 t e1
    | range a b =>
      rw [hc] at h
      simp only at h
      cases hl : rangeLoop fuel a b acc with
      | none => rw [hl] at h; simp at h
      | some cores1 =>
        rw [hl] at h
        obtain ⟨pre, tok, post, h1, h2, h3, h4⟩ := ih fuel _ cores e h
        refine ⟨TrimSpace part :: pre, tok, post, by simp [h1], ?_, h3, h4⟩
        intro t ht
        rcases List.mem_cons.mp ht with e1 | e1
        · rw [e1]; exact not_offending_of_range _ a b hc
        · exact h2 t e1
    | bad e1 =>
      rw [hc] at h
      simp only [Option.some.injEq, Prod.mk.injEq] at h
      have he : e1 = e := h.2
      subst he
      obtain ⟨ho, hi⟩ := classify_bad _ _ hc
      exact ⟨[], TrimSpace part, rest.map TrimSpace, by simp, by simp, ho, hi⟩

/-- A loop that returns without error met no offending token. -/
theorem parseParts_ok (parts : List String) :
    ∀ (fuel : Nat) (acc cores : List String),
      parseParts fuel parts acc = some (cores, none) →
      ∀ t ∈ parts.map TrimSpace, ¬ Offending t := by
  induction parts with
  | nil => intro fuel acc cores _ t ht; simp at ht
  | cons part rest ih =>
    intro fuel acc cores h t ht
    rw [parseParts_cons] at h
    simp only [List.map_cons] at ht
    cases hc : classify (TrimSpace part) with
    | blank =>
      rw [hc] at h
      rcases List.mem_cons.mp ht with e1 | e1
      · rw [e1]; exact not_offending_of_blank _ hc
      · exact ih fuel _ cores h t e1
    | single =>
      rw [hc] at h
      rcases List.mem_cons.mp ht with e1 | e1
      · rw [e1]; exact not_offending_of_single _ hc
      · exact ih fuel _ cores h t e1
    | range a b =>
      rw [hc] at h
      simp only at h
      cases hl : rangeLoop fuel a b acc with
      | none => rw [hl] at h; simp at h
      | some cores1 =>
        rw [hl] at h
        rcases List.mem_cons.mp ht with e1 | e1
        · rw [e1]; exact not_offending_of_range _ a b hc
        · exact ih fuel _ cores h t e1
    | bad e1 =>
      rw [hc] at h
      simp at h

/-- Once the ranges before the first offending token end below `maxInt`, the loop
returns an error given enough steps. -/
theorem parseParts_offending (pre : List String) :
    ∀ (parts : List String) (tok : String) (post : List String),
      parts.map TrimSpace = pre ++ tok :: post → (∀ t ∈ pre, ¬ Offending t) → Offending tok →
      (∀ t ∈ pre, RangeEndsBelowMax t) →
      ∃ f0, ∀ fuel, f0 ≤ fuel → ∀ acc, ∃ cores e,
        parseParts fuel parts acc = some (cores, some e) := by
  induction pre with
  | nil =>
    intro parts tok post hp _ ho _
    cases parts with
    | nil => simp at hp
    | cons part rest =>
      simp only [List.map_cons, List.nil_append, List.cons.injEq] at hp
      obtain ⟨e, he⟩ := offending_classify tok ho
      refine ⟨0, fun fuel _ acc => ⟨acc, e, ?_⟩⟩
      rw [parseParts_cons, hp.1, he]
  | cons t pre ih =>
    intro parts tok post hp hno ho hb
    cases parts with
    | nil => simp at hp
    | cons part rest =>
      simp only [List.map_cons, List.cons_append, List.cons.injEq] at hp
      obtain ⟨f0, hf0⟩ := ih rest tok post hp.2
        (fun x hx => hno x (List.mem_cons_of_mem t hx)) ho
        (fun x hx => hb x (List.mem_cons_of_mem t hx))
      cases hc : classify t with
      | blank =>
        refine ⟨f0, fun fuel hfuel acc => ?_⟩
        rw [parseParts_cons, hp.1, hc]
        exact hf0 fuel hfuel acc
      | single =>
        refine ⟨f0, fun fuel hfuel acc => ?_⟩
        rw [parseParts_cons, hp.1, hc]
        exact hf0 fuel hfuel _
      | range a b =>
        obtain ⟨ha, hmax⟩ := range_bounds_of_classify t a b hc (hb t (List.mem_cons_self t pre))
        refine ⟨max f0 ((b + 1 - a).toNat + 1), fun fuel hfuel acc => ?_⟩
        rw [parseParts_cons, hp.1, hc]
        simp only
        rw [rangeLoop_leaves a b ha hmax fuel (by omega) acc]
        exact hf0 fuel (by omega) _
      | bad e =>
        exact absurd (classify_bad t e hc).1 (hno t (List.mem_cons_self t pre))

/-- When every range ends below `maxInt`, the loop returns given enough steps. -/
theorem parseParts_returns (parts : List String) :
    (∀ t ∈ parts.map TrimSpace, RangeEndsBelowMax t) →
      ∃ f0, ∀ fuel, f0 ≤ fuel → ∀ acc, ∃ r, parseParts fuel parts acc = some r := by
  induction parts with
  | nil => intro _; exact ⟨0, fun fuel _ acc => ⟨(acc, none), by simp [parseParts]⟩⟩
  | cons part rest ih =>
    intro hb
    simp only [List.map_cons] at hb
    obtain ⟨f0, hf0⟩ := ih (fun x hx => hb x (List.mem_cons_of_mem _ hx))
    cases hc : classify (TrimSpace part) with
    | blank =>
      refine ⟨f0, fun fuel hfuel acc => ?_⟩
      rw [parseParts_cons, hc]
      exact hf0 fuel hfuel acc
    | single =>
      refine ⟨f0, fun fuel hfuel acc => ?_⟩
      rw [parseParts_cons, hc]
      exact hf0 fuel hfuel _
    | range a b =>
      obtain ⟨ha, hmax⟩ := range_bounds_of_classify _ a b hc (hb _ (List.mem_cons_self _ _))
      refine ⟨max f0 ((b + 1 - a).toNat + 1), fun fuel hfuel acc => ?_⟩
      rw [parseParts_cons, hc]
      simp only
      rw [rangeLoop_leaves a b ha hmax fuel (by omega) acc]
      exact hf0 fuel (by omega) _
    | bad e =>
      refine ⟨0, fun fuel _ acc => ⟨(acc, some e), ?_⟩⟩
      rw [parseParts_cons, hc]

/-- C2, as stated, fails. The only token of `99999999999999999999` is a dash-free
non-negative integer literal, and the only token of `1--2` is the two integer literals
`1` and `-2` separated by a single `-`; so neither input has an offending token, yet
`parseCpuList` returns an error on both, whatever the step budget. -/
theorem parseCpuList_error_without_offending_token :
    (cpuListTokens "99999999999999999999" = ["99999999999999999999"]
      ∧ Contains "99999999999999999999" '-' = false
      ∧ isIntegerLiteral "99999999999999999999" = true
      ∧ ∀ fuel, parseCpuList fuel "99999999999999999999"
          = some ([], some (.illegalValue "99999999999999999999"
              { Func := "Atoi", Num := "99999999999999999999", Err := .ErrRange })))
    ∧ (cpuListTokens "1--2" = ["1--2"]
      ∧ "1--2" = "1" ++ "-" ++ "-2"
      ∧ isIntegerLiteral "1" = true ∧ isIntegerLiteral "-2" = true
      ∧ Atoi "1" = .ok 1 ∧ Atoi "-2" = .ok (-2)
      ∧ ∀ fuel, parseCpuList fuel "1--2" = some ([], some (.illegalRange "1--2"))) := by
  refine ⟨⟨by decide, by decide, by decide, fun fuel => ?_⟩,
    ⟨by decide, by decide, by decide, by decide, by decide, by decide, fun fuel => ?_⟩⟩
  · have h : Split "99999999999999999999" ',' = ["99999999999999999999"] := by decide
    have hc : classify (TrimSpace "99999999999999999999")
        = .bad (.illegalValue "99999999999999999999"
            { Func := "Atoi", Num := "99999999999999999999", Err := .ErrRange }) := by decide
    rw [parseCpuList, h, parseParts_cons, hc]
  · have h : Split "1--2" ',' = ["1--2"] := by decide
    have hc : classify (TrimSpace "1--2") = .bad (.illegalRange "1--2") := by decide
    rw [parseCpuList, h, parseParts_cons, hc]

/-- C2, amended. Call a trimmed token accepted when it is a dash-free integer literal
that fits the `int` type, or two such literals, each possibly padded with white space,
joined by a single `-`; call it offending when it is neither blank nor accepted. Then:
an error returned by `parseCpuList` comes with a first offending token, whose text the
error message contains; a return without error means no token is offending; if there is
a first offending token and the ranges before it end below `maxInt`, `parseCpuList`
returns an error given enough steps; and if no token is offending and every range ends
below `maxInt`, it returns without error given enough steps. -/
theorem parseCpuList_error_iff_offending (expr : String) :
    (∀ fuel cores e, parseCpuList fuel expr = some (cores, some e) →
      ∃ pre tok post, cpuListTokens expr = pre ++ tok :: post ∧ (∀ t ∈ pre, ¬ Offending t)
        ∧ Offending tok ∧ ∀ quote, List.IsInfix tok.data (e.Error quote).data)
    ∧ (∀ fuel cores, parseCpuList fuel expr = some (cores, none) →
      ∀ t ∈ cpuListTokens expr, ¬ Offending t)
    ∧ (∀ pre tok post, cpuListTokens expr = pre ++ tok :: post →
      (∀ t ∈ pre, ¬ Offending t) → Offending tok → (∀ t ∈ pre, RangeEndsBelowMax t) →
      ∃ f0, ∀ fuel, f0 ≤ fuel → ∃ cores e, parseCpuList fuel expr = some (cores, some e))
    ∧ ((∀ t ∈ cpuListTokens expr, ¬ Offending t) →
      (∀ t ∈ cpuListTokens expr, RangeEndsBelowMax t) →
      ∃ f0, ∀ fuel, f0 ≤ fuel → ∃ cores, parseCpuList fuel expr = some (cores, none)) := by
  refine ⟨?_, ?_, ?_, ?_⟩
  · intro fuel cores e h
    exact parseParts_error (Split expr ',') fuel [] cores e h
  · intro fuel cores h
    exact parseParts_ok (Split expr ',') fuel [] cores h
  · intro pre tok post hp hno ho hb
    obtain ⟨f0, hf0⟩ := parseParts_offending pre (Split expr ',') tok post hp hno ho hb
    exact ⟨f0, fun fuel hfuel => hf0 fuel hfuel []⟩
  · intro hno hb
    obtain ⟨f0, hf0⟩ := parseParts_returns (Split expr ',') hb
    refine ⟨f0, fun fuel hfuel => ?_⟩
    obtain ⟨⟨cores, err⟩, hr⟩ := hf0 fuel hfuel []
    cases err with
    | none => exact ⟨cores, hr⟩
    | some e =>
      obtain ⟨pre, tok, post, h1, _, h3, _⟩ := parseParts_error (Split expr ',') fuel [] cores e hr
      have hmem : tok ∈ cpuListTokens expr := by
        unfold cpuListTokens
        rw [h1]
        simp
      exact absurd h3 (hno tok hmem)

theorem parseCpuList_error_iff_offending_witness :
    ∃ pre tok post, cpuListTokens "1,2-,b" = pre ++ tok :: post ∧ (∀ t ∈ pre, ¬ Offending t)
      ∧ Offending tok
      ∧ ∀ quote, List.IsInfix tok.data ((ParseError.illegalEnd "2-").Error quote).data :=
  (parseCpuList_error_iff_offending "1,2-,b").1 0 ["1"] (.illegalEnd "2-") (by decide)

theorem toDigitsCore_ne_nil (b fuel : Nat) :
    ∀ (n : Nat) (ds : List Char), ds ≠ [] → Nat.toDigitsCore b fuel n ds ≠ [] := by
  induction fuel with
  | zero => intro n ds h; simpa [Nat.toDigitsCore] using h
  | succ f ih =>
    intro n ds _
    unfold Nat.toDigitsCore
    simp only
    split
    · simp
    · exact ih _ _ (by simp)

theorem toDigits_ne_nil (n : Nat) : Nat.toDigits 10 n ≠ [] := by
  unfold Nat.toDigits Nat.toDigitsCore
  simp only
  split
  · simp
  · exact toDigitsCore_ne_nil _ _ _ _ (by simp)

theorem Itoa_ne_empty (i : Int) : Itoa i ≠ "" := by
  apply data_ne_nil_ne_empty
  cases i with
  | ofNat n => exact toDigits_ne_nil n
  | negSucc n => simp [Itoa]

theorem rangeLoop_nonempty (fuel : Nat) :
    ∀ (i e : Int) (acc out : List String), rangeLoop fuel i e acc = some out →
      (∀ c ∈ acc, c ≠ "") → ∀ c ∈ out, c ≠ "" := by
  induction fuel with
  | zero => intro i e acc out h; simp [rangeLoop] at h
  | succ f ih =>
    intro i e acc out h hacc
    unfold rangeLoop at h
    split at h
    · apply ih _ _ _ _ h
      intro c hc
      rcases List.mem_append.mp hc with h1 | h1
      · exact hacc c h1
      · rw [List.mem_singleton.mp h1]; exact Itoa_ne_empty i
    · simp only [Option.some.injEq] at h
      rw [← h]; exact hacc

theorem parseParts_nonempty (parts : List String) :
    ∀ (fuel : Nat) (acc out : List String) (r : Option ParseError),
      parseParts fuel parts acc = some (out, r) → (∀ c ∈ acc, c ≠ "") → ∀ c ∈ out, c ≠ "" := by
  induction parts with
  | nil =>
    intro fuel acc out r h hacc
    simp only [parseParts, Option.some.injEq, Prod.mk.injEq] at h
    rw [← h.1]; exact hacc
  | cons part rest ih =>
    intro fuel acc out r h hacc
    rw [parseParts_cons] at h
    cases hc : classify (TrimSpace part) with
    | blank => rw [hc] at h; exact ih fuel acc out r h hacc
    | single =>
      rw [hc] at h
      apply ih fuel _ out r h
      intro c hmem
      rcases List.mem_append.mp hmem with h1 | h1
      · exact hacc c h1
      · rw [List.mem_singleton.mp h1]; exact (classify_single _ hc).1
    | range a b =>
      rw [hc] at h
      simp only at h
      cases hl : rangeLoop fuel a b acc with
      | none => rw [hl] at h; simp at h
      | some cores1 =>
        rw [hl] at h
        exact ih fuel _ out r h (rangeLoop_nonempty fuel a b acc cores1 hl hacc)
    | bad e =>
      rw [hc] at h
      simp only [Option.some.injEq, Prod.mk.injEq] at h
      rw [← h.1]; exact hacc

theorem Join_ne_empty (cores : List String) (sep : String) (h0 : cores ≠ [])
    (h : ∀ c ∈ cores, c ≠ "") : Join cores sep ≠ "" := by
  cases cores with
  | nil => exact absurd rfl h0
  | cons a rest =>
    have ha : a.data ≠ [] := by
      intro e
      exact h a (List.mem_cons_self a rest) (String.ext e)
    cases rest with
    | nil => simpa [Join] using h a (List.mem_cons_self a [])
    | cons b rest2 =>
      apply data_ne_nil_ne_empty
      simp [Join, String.data_append, ha]

/-- Text that `Atoi` parses is an integer literal: an optional sign and decimal digits. -/
theorem Atoi_isIntegerLiteral (s : String) (v : Int) (h : Atoi s = .ok v) :
    isIntegerLiteral s = true := by
  rw [Atoi_ok_iff] at h
  unfold isIntegerLiteral
  split at h
  · simp at h
  · rename_i c cs hdata
    have hbody : ∀ (neg : Bool) (body : List Char), parseSigned neg body = .ok v →
        body ≠ [] ∧ body.all isDigit = true := by
      intro neg body hb
      refine ⟨?_, List.all_eq_true.mpr (parseSigned_digits neg body v hb)⟩
      intro e
      rw [e] at hb
      simp [parseSigned] at hb
    split at h
    · rename_i hc
      obtain ⟨h1, h2⟩ := hbody _ _ h
      simp only [hc, true_or, if_true, Bool.and_eq_true, Bool.not_eq_true', List.isEmpty_eq_false]
      exact ⟨h1, h2⟩
    · split at h
      · rename_i hc
        obtain ⟨h1, h2⟩ := hbody _ _ h
        simp only [hc, or_true, if_true, Bool.and_eq_true, Bool.not_eq_true',
          List.isEmpty_eq_false]
        exact ⟨h1, h2⟩
      · rename_i hc1 hc2
        obtain ⟨_, h2⟩ := hbody _ _ h
        simp only [hc1, hc2, or_self, if_false]
        exact h2

/-! ## Executor -/

theorem startArgs_eq (x : String) :
    "--" ++ StartFlag ++ " --" ++ CpuCountFlag ++ " " ++ x = "--start --cpu-count " ++ x := by
  apply String.ext
  simp [StartFlag, CpuCountFlag, String.data_append]

theorem listArgs_eq (y : String) :
    "--start --cpu-count 0" ++ " --" ++ CpuListFlag ++ " " ++ y
      = "--start --cpu-count 0 --cpu-list " ++ y := by
  apply String.ext
  simp [CpuListFlag, String.data_append]

/-- C6. With a channel set and a destroy marker in the context, `Exec` runs exactly one
command, `chaos_burncpu` under the channel's script path with the argument string
`--stop`, and returns the channel's response; the flags play no part. -/
theorem Exec_destroy_runs_stop {Response : Type} (fuel : Nat) (host : Host Response)
    (channel : Channel Response) (uid : String) (ctx : Context) (model : ExpModel)
    (marker : String) (hd : ctx.destroy = some marker) :
    cpuExecutor.Exec fuel host { channel := some channel } uid ctx model
      = some { response := channel.Run ctx
                 (host.pathJoin channel.GetScriptPath "chaos_burncpu") "--stop"
               commands := [{ script := host.pathJoin channel.GetScriptPath "chaos_burncpu"
                              args := "--stop" }] } := by
  simp [cpuExecutor.Exec, hd, cpuExecutor.stop, burnCpuBin, StopFlag]

theorem Exec_destroy_runs_stop_witness :
    cpuExecutor.Exec 0 (sampleHost 8 false) { channel := some sampleChannel } "uid-1"
        { destroy := some "uid-0" }
        (sampleModel [("cpu-list", "x-"), ("cpu-count", "many")])
      = some { response := "/opt/chaosblade/bin/chaos_burncpu --stop"
               commands := [{ script := "/opt/chaosblade/bin/chaos_burncpu"
                              args := "--stop" }] } :=
  Exec_destroy_runs_stop 0 (sampleHost 8 false) sampleChannel "uid-1"
    { destroy := some "uid-0" } (sampleModel [("cpu-list", "x-"), ("cpu-count", "many")])
    "uid-0" rfl

/-- C3. With a channel set, no destroy marker, an empty cpu-list flag and a cpu-count
flag that is absent (counted as 0) or parses as the integer `c`, on a host with
`n ≥ 1` logical CPUs, `Exec` runs exactly one command whose argument string is
`--start --cpu-count N` without a cpu-list flag, where `N = c` when `1 ≤ c ≤ n` and
`N = n` otherwise. -/
theorem Exec_cpu_count_resolution {Response : Type} (fuel : Nat) (host : Host Response)
    (channel : Channel Response) (uid : String) (ctx : Context) (model : ExpModel) (c : Int)
    (hd : ctx.destroy = none) (hl : model.flag CpuListFlag = "")
    (hc : (model.flag CpuCountFlag = "" ∧ c = 0) ∨ Atoi (model.flag CpuCountFlag) = .ok c)
    (_hn : 1 ≤ host.NumCPU) :
    cpuExecutor.Exec fuel host { channel := some channel } uid ctx model
      = some { response := channel.Run ctx
                 (host.pathJoin channel.GetScriptPath "chaos_burncpu")
                 ("--start --cpu-count " ++
                   Itoa (if 1 ≤ c ∧ c ≤ host.NumCPU then c else host.NumCPU))
               commands := [{ script := host.pathJoin channel.GetScriptPath "chaos_burncpu"
                              args := "--start --cpu-count " ++
                                Itoa (if 1 ≤ c ∧ c ≤ host.NumCPU then c else host.NumCPU) }] } := by
  have hN : ∀ k : Int, (if k ≤ 0 ∨ k > host.NumCPU then host.NumCPU else k)
      = (if 1 ≤ k ∧ k ≤ host.NumCPU then k else host.NumCPU) := by
    intro k
    by_cases h1 : k ≤ 0
    · have : ¬ (1 ≤ k ∧ k ≤ host.NumCPU) := by omega
      simp [h1, this]
    · by_cases h2 : k > host.NumCPU
      · have : ¬ (1 ≤ k ∧ k ≤ host.NumCPU) := by omega
        simp [h2, this]
      · have h3 : 1 ≤ k ∧ k ≤ host.NumCPU := by omega
        have h4 : ¬ (k ≤ 0 ∨ k > host.NumCPU) := by omega
        simp only [if_neg h4, if_pos h3]
  rcases hc with ⟨he, hc0⟩ | hok
  · subst hc0
    simp only [cpuExecutor.Exec, hd, hl, he, ne_eq, not_true_eq_false, if_false]
    rw [hN 0]
    simp [cpuExecutor.start, startArgs_eq, burnCpuBin]
  · have hne : model.flag CpuCountFlag ≠ "" := by
      intro he
      rw [he] at hok
      simp [Atoi] at hok
    simp only [cpuExecutor.Exec, hd, hl, ne_eq, not_true_eq_false, if_false, hne,
      not_false_eq_true, if_true, hok]
    rw [hN c]
    simp [cpuExecutor.start, startArgs_eq, burnCpuBin]

theorem Exec_cpu_count_resolution_witness :
    cpuExecutor.Exec 0 (sampleHost 8 false) { channel := some sampleChannel } "uid-1"
        { destroy := none } (sampleModel [])
      = some { response := "/opt/chaosblade/bin/chaos_burncpu --start --cpu-count 8"
               commands := [{ script := "/opt/chaosblade/bin/chaos_burncpu"
                              args := "--start --cpu-count 8" }] } :=
  Exec_cpu_count_resolution 0 (sampleHost 8 false) sampleChannel "uid-1"
    { destroy := none } (sampleModel []) 0 rfl rfl (Or.inl ⟨rfl, rfl⟩) (by decide)

/-- C5. cpu-list takes precedence over cpu-count: two calls of `Exec` whose flag maps
differ at most in the cpu-count entry (present, absent or malformed) and carry a
non-empty cpu-list have the same outcome, response and commands alike. -/
theorem Exec_cpu_list_precedence {Response : Type} (fuel : Nat) (host : Host Response)
    (ce : cpuExecutor Response) (uid : String) (ctx : Context) (m1 m2 : ExpModel)
    (hsame : ∀ key, key ≠ CpuCountFlag → m1.ActionFlags key = m2.ActionFlags key)
    (hlist : m1.flag CpuListFlag ≠ "") :
    cpuExecutor.Exec fuel host ce uid ctx m1 = cpuExecutor.Exec fuel host ce uid ctx m2 := by
  have hkey : m1.flag CpuListFlag = m2.flag CpuListFlag := by
    simp only [ExpModel.flag]
    rw [hsame CpuListFlag (by decide)]
  have hlist2 : m2.flag CpuListFlag ≠ "" := hkey ▸ hlist
  simp only [cpuExecutor.Exec, ne_eq, hlist, hlist2, not_false_eq_true, if_true, hkey]

theorem Exec_cpu_list_precedence_witness :
    cpuExecutor.Exec 8 (sampleHost 8 true) { channel := some sampleChannel } "uid-1"
        { destroy := none } (sampleModel [("cpu-list", "0-1"), ("cpu-count", "many")])
      = cpuExecutor.Exec 8 (sampleHost 8 true) { channel := some sampleChannel } "uid-1"
        { destroy := none } (sampleModel [("cpu-list", "0-1")]) :=
  Exec_cpu_list_precedence 8 (sampleHost 8 true) { channel := some sampleChannel } "uid-1"
    { destroy := none } (sampleModel [("cpu-list", "0-1"), ("cpu-count", "many")])
    (sampleModel [("cpu-list", "0-1")])
    (by
      intro key hk
      have hk2 : ¬ (key = "cpu-count") := hk
      simp [sampleModel, List.lookup]
      by_cases h1 : key = "cpu-list"
      · simp [h1]
      · have h3 : (key == "cpu-list") = false := by simpa using h1
        have h4 : (key == "cpu-count") = false := by simpa using hk2
        simp [h3, h4])
    (by decide)

/-- C4, as stated, fails: the cpu-list `5-2` is accepted by `parseCpuList` with no core,
and the command run is `--start --cpu-count 0`, not `--start --cpu-count 0 --cpu-list `
followed by the (empty) joined list. -/
theorem Exec_cpu_list_empty_expansion :
    parseCpuList 8 "5-2" = some ([], none)
    ∧ cpuExecutor.Exec 8 (sampleHost 8 true) { channel := some sampleChannel } "uid-1"
        { destroy := none } (sampleModel [("cpu-list", "5-2")])
      = some { response := "/opt/chaosblade/bin/chaos_burncpu --start --cpu-count 0"
               commands := [{ script := "/opt/chaosblade/bin/chaos_burncpu"
                              args := "--start --cpu-count 0" }] }
    ∧ "--start --cpu-count 0" ≠ "--start --cpu-count 0 --cpu-list " ++ Join [] "," := by
  refine ⟨by decide, rfl, by decide⟩

/-- C4, amended. With a channel set, no destroy marker, the affinity tool available and a
non-empty cpu-list flag that `parseCpuList` accepts with at least one core, `Exec` runs
exactly one command, whose argument string is `--start --cpu-count 0 --cpu-list L` with
`L` the comma-joined cores. -/
theorem Exec_cpu_list_start {Response : Type} (fuel : Nat) (host : Host Response)
    (channel : Channel Response) (uid : String) (ctx : Context) (model : ExpModel)
    (cores : List String)
    (hd : ctx.destroy = none) (ht : host.IsCommandAvailable TasksetCommand = true)
    (hne : model.flag CpuListFlag ≠ "")
    (hp : parseCpuList fuel (model.flag CpuListFlag) = some (cores, none))
    (hcores : cores ≠ []) :
    cpuExecutor.Exec fuel host { channel := some channel } uid ctx model
      = some { response := channel.Run ctx
                 (host.pathJoin channel.GetScriptPath "chaos_burncpu")
                 ("--start --cpu-count 0 --cpu-list " ++ Join cores ",")
               commands := [{ script := host.pathJoin channel.GetScriptPath "chaos_burncpu"
                              args := "--start --cpu-count 0 --cpu-list " ++ Join cores "," }] } := by
  have h0 : "--start --cpu-count " ++ Itoa 0 = "--start --cpu-count 0" := by decide
  have hj : Join cores "," ≠ "" :=
    Join_ne_empty cores "," hcores
      (parseParts_nonempty _ fuel [] cores none hp (by simp))
  simp only [cpuExecutor.Exec, hd, ne_eq, hne, not_false_eq_true, if_true, ht,
    Bool.not_true, Bool.false_eq_true, if_false, hp]
  simp only [cpuExecutor.start, startArgs_eq, burnCpuBin, ne_eq, hj, not_false_eq_true,
    if_true, if_false, listArgs_eq, h0]

theorem Exec_cpu_list_start_witness :
    cpuExecutor.Exec 8 (sampleHost 8 true) { channel := some sampleChannel } "uid-1"
        { destroy := none } (sampleModel [("cpu-list", "0-1")])
      = some { response := "/opt/chaosblade/bin/chaos_burncpu --start --cpu-count 0 --cpu-list 0,1"
               commands := [{ script := "/opt/chaosblade/bin/chaos_burncpu"
                              args := "--start --cpu-count 0 --cpu-list 0,1" }] } :=
  Exec_cpu_list_start 8 (sampleHost 8 true) sampleChannel "uid-1" { destroy := none }
    (sampleModel [("cpu-list", "0-1")]) ["0", "1"] rfl rfl (by decide) (by decide) (by decide)

/-! ## Preparation store -/

theorem scanRecord_star (r : Row) : scanRecord r.star = .ok r.toRecord := rfl

theorem scanRecords_star (rs : List Row) (acc : List PreparationRecord) :
    scanRecords (rs.map Row.star) acc = .ok (acc ++ rs.map Row.toRecord) := by
  induction rs generalizing acc with
  | nil => simp [scanRecords]
  | cons r rest ih => simp [scanRecords, scanRecord_star, ih]

theorem firstRecord_star (rs : List Row) :
    firstRecord (some (rs.map Row.star)) = .ret (.ok (rs.head?.map Row.toRecord)) := by
  simp only [firstRecord, getPreparationRecordFrom, scanRecords_star]
  cases rs <;> simp

/-- A point query over a working connection returns the first matching row, scanned. -/
theorem query_working (s : Source) (hw : s.working) (cond : Row → Bool) :
    s.DB.Query cond = (some ((s.DB.rows.filter cond).map Row.star), none) := by
  simp [DB.Query, hw.2]

theorem QueryRunning_eq (s : Source) (hw : s.working) (t p : String) :
    s.QueryRunningPreByTypeAndProcess t p
      = .ret (.ok (((s.DB.rows.filter (fun r =>
          if p = "" then decide (r.program_type = t ∧ r.status = "Running")
          else decide (r.program_type = t ∧ r.process = p ∧ r.status = "Running"))).head?).map
            Row.toRecord)) := by
  unfold Source.QueryRunningPreByTypeAndProcess
  simp only [DB.Prepare, hw.1, query_working s hw, firstRecord_star]
  by_cases hp : p = "" <;> simp [hp]

theorem head?_filter_some {α : Type} (cond : α → Bool) (l : List α) (x : α)
    (h : (l.filter cond).head? = some x) : x ∈ l ∧ cond x = true := by
  have hx : x ∈ l.filter cond := List.mem_of_mem_head? h
  exact List.mem_filter.mp hx

theorem head?_filter_isSome {α : Type} (cond : α → Bool) (l : List α) (x : α)
    (hx : x ∈ l) (hc : cond x = true) : ∃ y, (l.filter cond).head? = some y := by
  have hmem : x ∈ l.filter cond := List.mem_filter.mpr ⟨hx, hc⟩
  cases hf : l.filter cond with
  | nil => rw [hf] at hmem; cases hmem
  | cons y ys => exact ⟨y, rfl⟩

theorem head?_filter_none {α : Type} (cond : α → Bool) (l : List α)
    (h : ∀ x ∈ l, cond x = false) : (l.filter cond).head? = none := by
  have : l.filter cond = [] := by
    apply List.filter_eq_nil_iff.mpr
    intro x hx
    simp [h x hx]
  simp [this]

/-- C10. Over a working connection, `QueryRunningPreByTypeAndProcess t ""` returns a
record whenever some row has program type `t` and status `Running`, whatever its
process, and any record it returns has that type and status; for a non-empty process
`p` it returns a record exactly when some row has type `t`, process `p` and status
`Running`, and any record it returns has process `p`; in both cases it returns nil
without error when no row matches. -/
theorem QueryRunningPreByTypeAndProcess_semantics (s : Source) (hw : s.working)
    (t p : String) (hp : p ≠ "") :
    ((∃ row ∈ s.DB.rows, row.program_type = t ∧ row.status = "Running") →
        ∃ r, s.QueryRunningPreByTypeAndProcess t "" = .ret (.ok (some r)))
    ∧ (∀ r, s.QueryRunningPreByTypeAndProcess t "" = .ret (.ok (some r)) →
        r.ProgramType = t ∧ r.Status = "Running")
    ∧ ((∀ row ∈ s.DB.rows, ¬ (row.program_type = t ∧ row.status = "Running")) →
        s.QueryRunningPreByTypeAndProcess t "" = .ret (.ok none))
    ∧ ((∃ r, s.QueryRunningPreByTypeAndProcess t p = .ret (.ok (some r))) ↔
        ∃ row ∈ s.DB.rows, row.program_type = t ∧ row.process = p ∧ row.status = "Running")
    ∧ (∀ r, s.QueryRunningPreByTypeAndProcess t p = .ret (.ok (some r)) →
        r.ProgramType = t ∧ r.Process = p ∧ r.Status = "Running")
    ∧ ((∀ row ∈ s.DB.rows,
          ¬ (row.program_type = t ∧ row.process = p ∧ row.status = "Running")) →
        s.QueryRunningPreByTypeAndProcess t p = .ret (.ok none)) := by
  rw [QueryRunning_eq s hw t "", QueryRunning_eq s hw t p]
  simp only [if_true, if_neg hp]
  refine ⟨?_, ?_, ?_, ?_, ?_, ?_⟩
  · rintro ⟨row, hrow, h1, h2⟩
    obtain ⟨y, hy⟩ := head?_filter_isSome
      (fun r => decide (r.program_type = t ∧ r.status = "Running")) s.DB.rows row hrow
      (by simp [h1, h2])
    exact ⟨y.toRecord, by rw [hy]; rfl⟩
  · intro r hr
    cases hh : (s.DB.rows.filter
        (fun r => decide (r.program_type = t ∧ r.status = "Running"))).head? with
    | none => rw [hh] at hr; simp at hr
    | some y =>
      rw [hh] at hr
      have hy := (head?_filter_some _ _ _ hh).2
      simp only [Option.map_some', Go.ret.injEq, Except.ok.injEq, Option.some.injEq] at hr
      subst hr
      simpa [Row.toRecord] using hy
  · intro hno
    rw [head?_filter_none]
    · rfl
    · intro x hx
      simpa using hno x hx
  · constructor
    · rintro ⟨r, hr⟩
      cases hh : (s.DB.rows.filter (fun r => decide
          (r.program_type = t ∧ r.process = p ∧ r.status = "Running"))).head? with
      | none => rw [hh] at hr; simp at hr
      | some y =>
        have hy := head?_filter_some _ _ _ hh
        exact ⟨y, hy.1, by simpa using hy.2⟩
    · rintro ⟨row, hrow, h1, h2, h3⟩
      obtain ⟨y, hy⟩ := head?_filter_isSome
        (fun r => decide (r.program_type = t ∧ r.process = p ∧ r.status = "Running"))
        s.DB.rows row hrow (by simp [h1, h2, h3])
      exact ⟨y.toRecord, by rw [hy]; rfl⟩
  · intro r hr
    cases hh : (s.DB.rows.filter (fun r => decide
        (r.program_type = t ∧ r.process = p ∧ r.status = "Running"))).head? with
    | none => rw [hh] at hr; simp at hr
    | some y =>
      rw [hh] at hr
      have hy := (head?_filter_some _ _ _ hh).2
      simp only [Option.map_some', Go.ret.injEq, Except.ok.injEq, Option.some.injEq] at hr
      subst hr
      simpa [Row.toRecord] using hy
  · intro hno
    rw [head?_filter_none]
    · rfl
    · intro x hx
      simpa using hno x hx

theorem QueryRunningPreByTypeAndProcess_semantics_witness :
    (∃ r, sampleSource.QueryRunningPreByTypeAndProcess "cpu" "" = .ret (.ok (some r)))
    ∧ sampleSource.QueryRunningPreByTypeAndProcess "cpu" "nginx" = .ret (.ok none) :=
  have h := QueryRunningPreByTypeAndProcess_semantics sampleSource ⟨rfl, rfl⟩ "cpu" "nginx"
    (by decide)
  ⟨h.1 ⟨_, List.mem_cons_self _ _, rfl, rfl⟩, h.2.2.2.2.2 (by decide)⟩

theorem insertedRow_insertPre (id : Int) (r : PreparationRecord) :
    insertedRow id insertPreColumns
        [r.Uid, r.ProgramType, r.Process, r.Port, r.Status, r.Error, r.CreateTime,
         r.UpdateTime]
      = some (rowOf id r) := by
  simp +decide [insertedRow, boundValue, insertPreColumns, List.lookup, rowOf]

/-- C7. Over a working connection, inserting a record whose `Uid` is not yet stored
succeeds, and `QueryPreparationByUid` on that `Uid` then returns a record equal to the
inserted one in all eight fields. -/
theorem insert_then_QueryPreparationByUid (s : Source) (r : PreparationRecord)
    (hw : s.working) (hfresh : ∀ row ∈ s.DB.rows, row.uid ≠ r.Uid) :
    (s.InsertPreparationRecord r).2 = none
    ∧ (s.InsertPreparationRecord r).1.QueryPreparationByUid r.Uid = .ret (.ok (some r)) := by
  have hany : (s.DB.rows.any fun row => decide (row.uid = r.Uid)) = false := by
    rw [List.any_eq_false]
    intro x hx
    simpa using hfresh x hx
  have hfil : s.DB.rows.filter (fun row => decide (row.uid = r.Uid)) = [] := by
    apply List.filter_eq_nil_iff.mpr
    intro x hx
    simpa using hfresh x hx
  have hins : s.InsertPreparationRecord r
      = (Source.mk ⟨s.DB.rows ++ [rowOf (s.DB.seq + 1) r], s.DB.seq + 1, none, none⟩,
          none) := by
    have huid : (rowOf (s.DB.seq + 1) r).uid = r.Uid := rfl
    simp [Source.InsertPreparationRecord, DB.Prepare, hw.1, DB.execInsert, hw.2,
      insertedRow_insertPre, huid, hany]
  rw [hins]
  refine ⟨rfl, ?_⟩
  simp only [Source.QueryPreparationByUid, DB.Prepare, hw.1, DB.Query, hw.2,
    List.filter_append, hfil, List.nil_append]
  have huid : (rowOf (s.DB.seq + 1) r).uid = r.Uid := rfl
  simp [List.filter, huid, firstRecord, getPreparationRecordFrom, scanRecords, Row.star,
    scanRecord, rowOf]

theorem insert_then_QueryPreparationByUid_witness :
    (sampleSource.InsertPreparationRecord sampleRecord).2 = none
    ∧ (sampleSource.InsertPreparationRecord sampleRecord).1.QueryPreparationByUid "u3"
        = .ret (.ok (some sampleRecord)) :=
  insert_then_QueryPreparationByUid sampleSource sampleRecord ⟨rfl, rfl⟩ (by decide)

/-- C8, at the failing call. When the statement prepares but running it fails with `e`,
the four other operations return `e` unchanged, whereas `ListPreparationRecords` drops
the error of `stmt.Query` and panics on the nil `rows`. -/
theorem ListPreparationRecords_query_error_panics (rows : List Row) (seq : Int) (e : Error)
    (record : PreparationRecord) (now uid status errMsg programType process : String) :
    ((Source.mk ⟨rows, seq, none, some e⟩).InsertPreparationRecord record).2 = some e
    ∧ (Source.mk ⟨rows, seq, none, some e⟩).QueryPreparationByUid uid = .ret (.error e)
    ∧ (Source.mk ⟨rows, seq, none, some e⟩).QueryRunningPreByTypeAndProcess programType
        process = .ret (.error e)
    ∧ ((Source.mk ⟨rows, seq, none, some e⟩).UpdatePreparationRecordByUid now uid status
        errMsg).2 = some e
    ∧ (Source.mk ⟨rows, seq, none, some e⟩).ListPreparationRecords = .panic := by
  refine ⟨?_, ?_, ?_, ?_, ?_⟩ <;>
    simp [Source.InsertPreparationRecord, Source.QueryPreparationByUid,
      Source.QueryRunningPreByTypeAndProcess, Source.UpdatePreparationRecordByUid,
      Source.ListPreparationRecords, DB.Prepare, DB.execInsert, DB.execUpdate, DB.Query,
      getPreparationRecordFrom]

/-- A failure to prepare the statement is returned unchanged by all five operations. -/
theorem prepare_error_surfaced (rows : List Row) (seq : Int) (e : Error) (run : Option Error)
    (record : PreparationRecord) (now uid status errMsg programType process : String) :
    ((Source.mk ⟨rows, seq, some e, run⟩).InsertPreparationRecord record).2 = some e
    ∧ (Source.mk ⟨rows, seq, some e, run⟩).QueryPreparationByUid uid = .ret (.error e)
    ∧ (Source.mk ⟨rows, seq, some e, run⟩).QueryRunningPreByTypeAndProcess programType
        process = .ret (.error e)
    ∧ ((Source.mk ⟨rows, seq, some e, run⟩).UpdatePreparationRecordByUid now uid status
        errMsg).2 = some e
    ∧ (Source.mk ⟨rows, seq, some e, run⟩).ListPreparationRecords = .ret (.error e) := by
  refine ⟨?_, ?_, ?_, ?_, ?_⟩ <;>
    simp [Source.InsertPreparationRecord, Source.QueryPreparationByUid,
      Source.QueryRunningPreByTypeAndProcess, Source.UpdatePreparationRecordByUid,
      Source.ListPreparationRecords, DB.Prepare]

/-- C9. Over a working connection `UpdatePreparationRecordByUid uid status errMsg`
returns success and keeps the number and order of rows; when no row has that `uid` the
table is unchanged; a row with that `uid` gets `status`, `errMsg` and the call-time
stamp as its status, error and update time and keeps its id, uid, program type, process,
port and create time; every other row is unchanged. -/
theorem UpdatePreparationRecordByUid_frame (s : Source) (now uid status errMsg : String)
    (hw : s.working) :
    (s.UpdatePreparationRecordByUid now uid status errMsg).2 = none
    ∧ ((∀ row ∈ s.DB.rows, row.uid ≠ uid) →
        (s.UpdatePreparationRecordByUid now uid status errMsg).1.DB.rows = s.DB.rows)
    ∧ (s.UpdatePreparationRecordByUid now uid status errMsg).1.DB.rows.length
        = s.DB.rows.length
    ∧ ∀ (i : Nat) (row : Row), s.DB.rows[i]? = some row →
        ∃ row1, (s.UpdatePreparationRecordByUid now uid status errMsg).1.DB.rows[i]?
            = some row1
          ∧ (row.uid ≠ uid → row1 = row)
          ∧ (row.uid = uid →
              row1.status = status ∧ row1.error = errMsg ∧ row1.update_time = now
              ∧ row1.id = row.id ∧ row1.uid = row.uid
              ∧ row1.program_type = row.program_type ∧ row1.process = row.process
              ∧ row1.port = row.port ∧ row1.create_time = row.create_time) := by
  have hupd : s.UpdatePreparationRecordByUid now uid status errMsg
      = ({ DB := { s.DB with rows := s.DB.rows.map (fun r =>
             if r.uid = uid then
               [("status", status), ("error", errMsg), ("update_time", now)].foldl
                 (fun r a => r.set a.1 a.2) r
             else r) } }, none) := by
    simp only [Source.UpdatePreparationRecordByUid, DB.Prepare, hw.1, DB.execUpdate, hw.2]
  rw [hupd]
  refine ⟨rfl, ?_, by simp, ?_⟩
  · intro hno
    show List.map _ s.DB.rows = s.DB.rows
    conv => rhs; rw [← List.map_id s.DB.rows]
    apply List.map_congr_left
    intro r hr
    simp [hno r hr]
  · intro i row hrow
    refine ⟨if row.uid = uid then
        [("status", status), ("error", errMsg), ("update_time", now)].foldl
          (fun r a => r.set a.1 a.2) row
      else row, by simp only [List.getElem?_map, hrow, Option.map_some'], ?_, ?_⟩
    · intro hne
      simp [hne]
    · intro heq
      simp +decide [heq, Row.set, List.foldl]

theorem UpdatePreparationRecordByUid_frame_witness :
    (sampleSource.UpdatePreparationRecordByUid "2019-02-01T00:00:00Z" "u1" "Destroyed"
        "").2 = none
    ∧ (sampleSource.UpdatePreparationRecordByUid "2019-02-01T00:00:00Z" "u1" "Destroyed"
        "").1.DB.rows.length = 2 :=
  have h := UpdatePreparationRecordByUid_frame sampleSource "2019-02-01T00:00:00Z" "u1"
    "Destroyed" "" ⟨rfl, rfl⟩
  ⟨h.1, h.2.2.1⟩

end Chaosblade
